import Mathlib

/-!
Verification of the SBDKelas financial tracker's ledger consistency engine.

The development is a shallow embedding of the repository's code:

* the mongoose schemas (`model/Account.js`, `model/Transaction.js`,
  `model/Category.js`, `model/Goal.js`) become Lean structures;
* the controller operations (`controller/TransactionController.js`, the goal
  controller, the category controller) become pure functions
  `DB → Except Err (result × DB)` — a returned `.error` corresponds to the
  controller aborting its mongoose session, so the caller's state is
  unchanged, and `.ok` carries the committed state;
* monetary values are modelled as `Int` (the claims concern exact signed
  sums); document ids as `Nat`; Mongo id lookup as first-match search in a
  list of documents.

Fields that play no role in any claim (authentication fields on Account,
`created_at` timestamps, `target_date`) are omitted.
-/

namespace SBD

/-- An account document (`model/Account.js`).  The authentication fields
(username, email, password, is_admin) play no part in ledger consistency and
are omitted. -/
structure Account where
  id : Nat
  balance : Int
deriving DecidableEq

/-- A transaction document (`model/Transaction.js`). -/
structure Txn where
  id : Nat
  id_akun : Nat
  tipe : String
  deskripsi : String
  nominal : Int
  category : String
  tags : List String
deriving DecidableEq

/-- A category document (`model/Category.js`); natural key is the
(user_id, name, type) triple. -/
structure Category where
  user_id : Nat
  name : String
  type : String
  balance : Int
deriving DecidableEq

/-- A goal document (`model/Goal.js`). -/
structure Goal where
  id : Nat
  user_id : Nat
  title : String
  target_amount : Int
  saved_amount : Int
  status : String
deriving DecidableEq

/-- The persisted state: the four mongo collections plus a fresh-id
counter used when new documents are created. -/
structure DB where
  accounts : List Account
  transactions : List Txn
  categories : List Category
  goals : List Goal
  nextId : Nat
deriving DecidableEq

/-- Error outcomes of the controllers, following the spec's taxonomy:
validation errors map to HTTP 400, not-found to 404, and the
insufficient-funds rejection of `withdrawFunds` carries the available
`saved_amount` (the `available` field of its 400 response body). -/
inductive Err where
  | validation
  | notFound
  | insufficientFunds (available : Int)
deriving DecidableEq

/-- `Account.findById`: first document with the id. -/
def findAccount (db : DB) (id : Nat) : Option Account :=
  db.accounts.find? (fun a => a.id == id)

/-- `Account.findByIdAndUpdate(id, { balance })`: overwrite the balance of
the document with the id. -/
def setAccountBalance : List Account → Nat → Int → List Account
  | [], _, _ => []
  | a :: rest, id, b =>
    if a.id == id then { a with balance := b } :: rest
    else a :: setAccountBalance rest id b

/-- `Transaction.findById`. -/
def findTxn (db : DB) (id : Nat) : Option Txn :=
  db.transactions.find? (fun t => t.id == id)

/-- `Transaction.findByIdAndUpdate(id, body)`: replace the document with the
id by the merged document. -/
def replaceTxn : List Txn → Nat → Txn → List Txn
  | [], _, _ => []
  | t :: rest, id, u => if t.id == id then u :: rest else t :: replaceTxn rest id u

/-- `Transaction.findByIdAndDelete(id)`. -/
def eraseTxn : List Txn → Nat → List Txn
  | [], _ => []
  | t :: rest, id => if t.id == id then rest else t :: eraseTxn rest id

/-- `Goal.findById`. -/
def findGoal (db : DB) (id : Nat) : Option Goal :=
  db.goals.find? (fun g => g.id == id)

/-- Persisting an updated goal document in place. -/
def replaceGoal : List Goal → Nat → Goal → List Goal
  | [], _, _ => []
  | g :: rest, id, u => if g.id == id then u :: rest else g :: replaceGoal rest id u

/-- The JS blank-tag test `!tagName.trim()`: true iff the string has no
non-whitespace character. -/
def isBlankTag (s : String) : Bool :=
  s.data.all Char.isWhitespace

/-- The category lookup predicate used by
`Category.findOne({ user_id, name, type })`. -/
def catMatches (c : Category) (uid : Nat) (name ty : String) : Bool :=
  c.user_id == uid && c.name == name && c.type == ty

/-- One iteration of the loop body of `updateCategoryBalances`
(TransactionController.js:17-37): find the category for the (user, tag,
type) triple; add `amount` to its balance if present, otherwise create it
with balance `amount`. -/
def addToCategory : List Category → Nat → String → String → Int → List Category
  | [], uid, name, ty, amount => [⟨uid, name, ty, amount⟩]
  | c :: rest, uid, name, ty, amount =>
    if catMatches c uid name ty then { c with balance := c.balance + amount } :: rest
    else c :: addToCategory rest uid name ty amount

/-- `updateCategoryBalances(transaction, session, reverseAmount)`
(TransactionController.js:7-39): for each non-blank tag of the transaction,
add `±nominal` to the category keyed by (id_akun, tag, tipe), creating it on
first use. -/
def updateCategoryBalances (tx : Txn) (reverseAmount : Bool) (cats : List Category) :
    List Category :=
  tx.tags.foldl
    (fun cs tagName =>
      if isBlankTag tagName then cs
      else addToCategory cs tx.id_akun tagName tx.tipe
        (if reverseAmount then -tx.nominal else tx.nominal))
    cats

/-- The transaction schema's `tipe` enum. -/
def validTipe (t : String) : Bool :=
  t == "income" || t == "expense"

/-- Mongoose validation run by `transaction.save()`: `tipe` must lie in the
enum and `deskripsi` is a required string (mongoose `required` rejects the
empty string).  The schema places no minimum on `nominal`, so any integer —
zero and negatives included — passes. -/
def txnValid (t : Txn) : Bool :=
  validTipe t.tipe && t.deskripsi != ""

/-- A create-transaction request body.  `category` and `tags` are optional
with the JS falsy fallbacks `req.body.category || 'lainnya'` and
`req.body.tags || []`. -/
structure CreateTxnReq where
  id_akun : Nat
  tipe : String
  deskripsi : String
  nominal : Int
  category : Option String
  tags : Option (List String)
deriving DecidableEq

/-- The balance after applying a transaction effect with the given kind
and amount (TransactionController.js:92-96 and 161-165). -/
def applyBalance (b : Int) (t : String) (n : Int) : Int :=
  if t == "income" then b + n else if t == "expense" then b - n else b

/-- The balance after reverting a transaction effect with the given kind
and amount (TransactionController.js:141-145 and 210-214). -/
def revertBalance (b : Int) (t : String) (n : Int) : Int :=
  if t == "income" then b - n else if t == "expense" then b + n else b

/-- The transaction document built from a create request
(TransactionController.js:70-78). -/
def reqTxn (req : CreateTxnReq) (id : Nat) : Txn :=
  { id := id
    id_akun := req.id_akun
    tipe := req.tipe
    deskripsi := req.deskripsi
    nominal := req.nominal
    category :=
      match req.category with
      | some c => if c == "" then "lainnya" else c
      | none => "lainnya"
    tags := req.tags.getD [] }

/-- `createTransaction` (TransactionController.js:65-116): build and save
the transaction (mongoose validation), look up the account (404 when
absent), apply the signed balance delta, update category balances, commit. -/
def createTransaction (req : CreateTxnReq) (db : DB) : Except Err (Txn × DB) :=
  if !txnValid (reqTxn req db.nextId) then .error .validation
  else
    match findAccount db req.id_akun with
    | none => .error .notFound
    | some account =>
      .ok (reqTxn req db.nextId,
        { db with
          transactions := db.transactions ++ [reqTxn req db.nextId]
          accounts := setAccountBalance db.accounts req.id_akun
            (applyBalance account.balance req.tipe req.nominal)
          categories := updateCategoryBalances (reqTxn req db.nextId) false db.categories
          nextId := db.nextId + 1 })

/-- An update-transaction request body, restricted to the mutable
transaction attributes (kind, description, amount, tags).  `none` models an
absent field. -/
structure UpdateTxnBody where
  tipe : Option String
  deskripsi : Option String
  nominal : Option Int
  tags : Option (List String)
deriving DecidableEq

/-- The falsy fallback `req.body.tipe || originalTransaction.tipe`: an
absent or empty-string field falls back to the original. -/
def fallbackTipe : Option String → String → String
  | some t, orig => if t == "" then orig else t
  | none, orig => orig

/-- The falsy fallback `req.body.nominal || originalTransaction.nominal`:
an absent or zero field falls back to the original. -/
def fallbackNominal : Option Int → Int → Int
  | some n, orig => if n == 0 then orig else n
  | none, orig => orig

/-- The document produced by `Transaction.findByIdAndUpdate(id, body)`:
body fields overwrite the original's (an explicitly present falsy value is
stored as-is; update validators are not run on this path). -/
def mergedTxn (body : UpdateTxnBody) (orig : Txn) : Txn :=
  { orig with
    tipe := body.tipe.getD orig.tipe
    deskripsi := body.deskripsi.getD orig.deskripsi
    nominal := body.nominal.getD orig.nominal
    tags := body.tags.getD orig.tags }

/-- `updateTransaction` (TransactionController.js:119-186): load the
original and its account (404s), reverse the original's balance and
category effects, persist the merged document, then re-apply using
`req.body.tipe || original.tipe` and `req.body.nominal || original.nominal`
for the account delta but the merged document for the category effects. -/
def updateTransaction (txId : Nat) (body : UpdateTxnBody) (db : DB) :
    Except Err (Txn × DB) :=
  match findTxn db txId with
  | none => .error .notFound
  | some orig =>
    match findAccount db orig.id_akun with
    | none => .error .notFound
    | some account =>
      .ok (mergedTxn body orig,
        { db with
          transactions := replaceTxn db.transactions txId (mergedTxn body orig)
          accounts := setAccountBalance db.accounts orig.id_akun
            (applyBalance (revertBalance account.balance orig.tipe orig.nominal)
              (fallbackTipe body.tipe orig.tipe)
              (fallbackNominal body.nominal orig.nominal))
          categories :=
            updateCategoryBalances (mergedTxn body orig) false
              (updateCategoryBalances orig true db.categories) })

/-- `deleteTransaction` (TransactionController.js:189-238): load the
transaction and its account (404s), reverse the balance and category
effects, delete the document, commit. -/
def deleteTransaction (txId : Nat) (db : DB) : Except Err DB :=
  match findTxn db txId with
  | none => .error .notFound
  | some tx =>
    match findAccount db tx.id_akun with
    | none => .error .notFound
    | some account =>
      .ok
        { db with
          transactions := eraseTxn db.transactions txId
          accounts := setAccountBalance db.accounts tx.id_akun
            (revertBalance account.balance tx.tipe tx.nominal)
          categories := updateCategoryBalances tx true db.categories }

/-- The goal schema's `status` enum. -/
def validStatus (s : String) : Bool :=
  s == "active" || s == "completed" || s == "paused"

/-- Mongoose validation run when a goal document is saved or updated with
validators: `title` is required (non-empty), `target_amount` and
`saved_amount` carry `min: 0`, and `status` must lie in the enum. -/
def goalValid (g : Goal) : Bool :=
  g.title != "" && decide (0 ≤ g.target_amount) && decide (0 ≤ g.saved_amount) &&
    validStatus g.status

/-- `goal.save()` (model/Goal.js): mongoose first validates the document,
then the `pre('save')` middleware auto-promotes `status` to `completed`
whenever `saved_amount >= target_amount`. -/
def goalSave (g : Goal) : Except Err Goal :=
  if !goalValid g then .error .validation
  else if g.target_amount ≤ g.saved_amount then .ok { g with status := "completed" }
  else .ok g

/-- The `progress` virtual of the goal schema:
`target_amount === 0 ? 0 : min(round(saved/target*100), 100)`, with
`Math.round` modelled as rational floor of `x + 1/2`. -/
def goalProgress (g : Goal) : Int :=
  if g.target_amount = 0 then 0
  else min ⌊(g.saved_amount * 100 : ℚ) / g.target_amount + 1/2⌋ 100

/-- The `remaining_amount` virtual: `max(target - saved, 0)`. -/
def goalRemaining (g : Goal) : Int :=
  max (g.target_amount - g.saved_amount) 0

/-- A create-goal request body (`createGoal`); `saved_amount` is optional
with the falsy fallback `req.body.saved_amount || 0`. -/
structure CreateGoalReq where
  title : String
  target_amount : Int
  saved_amount : Option Int
deriving DecidableEq

/-- The goal document built by `createGoal` from the request: status
defaults to `active`, `saved_amount` uses the falsy fallback
`req.body.saved_amount || 0`. -/
def reqGoal (userId : Nat) (req : CreateGoalReq) (id : Nat) : Goal :=
  { id := id
    user_id := userId
    title := req.title
    target_amount := req.target_amount
    saved_amount := req.saved_amount.getD 0
    status := "active" }

/-- `createGoal` (goal controller): validate that the user account exists
(404), build the goal, save it (schema validation plus the auto-complete
hook). -/
def createGoal (userId : Nat) (req : CreateGoalReq) (db : DB) :
    Except Err (Goal × DB) :=
  match findAccount db userId with
  | none => .error .notFound
  | some _ =>
    match goalSave (reqGoal userId req db.nextId) with
    | .error e => .error e
    | .ok g' => .ok (g', { db with goals := db.goals ++ [g'], nextId := db.nextId + 1 })

/-- An update-goal request body, restricted to the mutable goal
attributes. -/
structure UpdateGoalBody where
  title : Option String
  target_amount : Option Int
  saved_amount : Option Int
  status : Option String
deriving DecidableEq

/-- The document produced by `Goal.findByIdAndUpdate(id, body)`. -/
def mergedGoal (body : UpdateGoalBody) (g : Goal) : Goal :=
  { g with
    title := body.title.getD g.title
    target_amount := body.target_amount.getD g.target_amount
    saved_amount := body.saved_amount.getD g.saved_amount
    status := body.status.getD g.status }

/-- `updateGoal` (goal controller):
`Goal.findByIdAndUpdate(id, body, { new: true, runValidators: true })`.
Validators run on the merged document, but — unlike `save()` — the update
path does not run the `pre('save')` middleware, so no status
auto-promotion happens here. -/
def updateGoal (goalId : Nat) (body : UpdateGoalBody) (db : DB) :
    Except Err (Goal × DB) :=
  match findGoal db goalId with
  | none => .error .notFound
  | some g =>
    if !goalValid (mergedGoal body g) then .error .validation
    else
      .ok (mergedGoal body g,
        { db with goals := replaceGoal db.goals goalId (mergedGoal body g) })

/-- `goal.title.toLowerCase().replace(/\s+/g, '-')`, character by
character: whitespace runs collapse to a single `-`, everything else is
lowercased.  The boolean records whether the previous character was
whitespace. -/
def slugChars : Bool → List Char → List Char
  | _, [] => []
  | prevWs, c :: cs =>
    if c.isWhitespace then
      (if prevWs then [] else ['-']) ++ slugChars true cs
    else c.toLower :: slugChars false cs

/-- The tag slug used by `allocateFunds` / `withdrawFunds`. -/
def slugify (s : String) : String :=
  ⟨slugChars false s.data⟩

/-- An allocate/withdraw request body.  `amount` is `Number(req.body.amount)`
with `none` modelling a non-numeric value (NaN), which the controllers
reject together with non-positive amounts. -/
structure FundsReq where
  amount : Option Int
  note : Option String
  create_transaction : Bool
deriving DecidableEq

/-- The description string of the transaction recorded by
`allocateFunds`. -/
def allocDesc (title : String) (note : Option String) : String :=
  "Goal allocation: " ++ title ++ (match note with | some n => " - " ++ n | none => "")

/-- The description string of the transaction recorded by
`withdrawFunds`. -/
def withdrawDesc (title : String) (note : Option String) : String :=
  "Goal withdrawal: " ++ title ++ (match note with | some n => " - " ++ n | none => "")

/-- The expense transaction recorded by `allocateFunds` (lines 235-243). -/
def allocTxn (goal : Goal) (amount : Int) (note : Option String) (id : Nat) : Txn :=
  { id := id
    id_akun := goal.user_id
    tipe := "expense"
    deskripsi := allocDesc goal.title note
    nominal := amount
    category := "savings"
    tags := ["goal", "savings", slugify goal.title] }

/-- The income transaction recorded by `withdrawFunds` (lines 318-326). -/
def withdrawTxn (goal : Goal) (amount : Int) (note : Option String) (id : Nat) : Txn :=
  { id := id
    id_akun := goal.user_id
    tipe := "income"
    deskripsi := withdrawDesc goal.title note
    nominal := amount
    category := "savings"
    tags := ["goal", "withdrawal", slugify goal.title] }

/-- `allocateFunds` (goal controller, lines 209-270): load the goal (404),
reject a NaN or non-positive amount (400), increase `saved_amount` and save
the goal (validation + auto-complete hook).  When `create_transaction` is
requested, save an `expense` transaction tagged
`['goal', 'savings', slug]`, and — only `if (account)` exists — decrease
the account balance; a missing account is silently skipped, and category
balances are never touched. -/
def allocateFunds (goalId : Nat) (req : FundsReq) (db : DB) :
    Except Err (Goal × DB) :=
  match findGoal db goalId with
  | none => .error .notFound
  | some goal =>
    match req.amount with
    | none => .error .validation
    | some amount =>
      if amount ≤ 0 then .error .validation
      else
        match goalSave { goal with saved_amount := goal.saved_amount + amount } with
        | .error e => .error e
        | .ok goal2 =>
          if req.create_transaction then
            if !txnValid (allocTxn goal amount req.note db.nextId) then .error .validation
            else
              match findAccount db goal.user_id with
              | some account =>
                .ok (goal2,
                  { db with
                    goals := replaceGoal db.goals goalId goal2
                    transactions := db.transactions ++ [allocTxn goal amount req.note db.nextId]
                    nextId := db.nextId + 1
                    accounts :=
                      setAccountBalance db.accounts goal.user_id
                        (account.balance - amount) })
              | none =>
                .ok (goal2,
                  { db with
                    goals := replaceGoal db.goals goalId goal2
                    transactions := db.transactions ++ [allocTxn goal amount req.note db.nextId]
                    nextId := db.nextId + 1 })
          else .ok (goal2, { db with goals := replaceGoal db.goals goalId goal2 })

/-- `withdrawFunds` (goal controller, lines 283-353): load the goal (404),
reject a NaN or non-positive amount (400), reject an amount exceeding
`saved_amount` with a 400 carrying the available amount, decrease
`saved_amount` and save.  When `create_transaction` is requested, save an
`income` transaction tagged `['goal', 'withdrawal', slug]` and — only
`if (account)` exists — increase the account balance. -/
def withdrawFunds (goalId : Nat) (req : FundsReq) (db : DB) :
    Except Err (Goal × DB) :=
  match findGoal db goalId with
  | none => .error .notFound
  | some goal =>
    match req.amount with
    | none => .error .validation
    | some amount =>
      if amount ≤ 0 then .error .validation
      else if goal.saved_amount < amount then .error (.insufficientFunds goal.saved_amount)
      else
        match goalSave { goal with saved_amount := goal.saved_amount - amount } with
        | .error e => .error e
        | .ok goal2 =>
          if req.create_transaction then
            if !txnValid (withdrawTxn goal amount req.note db.nextId) then .error .validation
            else
              match findAccount db goal.user_id with
              | some account =>
                .ok (goal2,
                  { db with
                    goals := replaceGoal db.goals goalId goal2
                    transactions := db.transactions ++ [withdrawTxn goal amount req.note db.nextId]
                    nextId := db.nextId + 1
                    accounts :=
                      setAccountBalance db.accounts goal.user_id
                        (account.balance + amount) })
              | none =>
                .ok (goal2,
                  { db with
                    goals := replaceGoal db.goals goalId goal2
                    transactions := db.transactions ++ [withdrawTxn goal amount req.note db.nextId]
                    nextId := db.nextId + 1 })
          else .ok (goal2, { db with goals := replaceGoal db.goals goalId goal2 })

/-- The accumulator entry of `generateCategoriesFromTags`'s `tagData` map:
tag name, transaction kind, accumulated balance.  The JS map is keyed by
the string `tag + '-' + tipe`, which is injective in (tag, tipe) because
`tipe` is one of the two enum words, so keying by the pair is faithful. -/
def upsertTagData :
    List (String × String × Int) → String → String → Int → List (String × String × Int)
  | [], name, ty, n => [(name, ty, n)]
  | (nm, t, b) :: rest, name, ty, n =>
    if nm == name && t == ty then (nm, t, b + n) :: rest
    else (nm, t, b) :: upsertTagData rest name ty n

/-- The `tagData` accumulation loop of `generateCategoriesFromTags`
(category controller, lines 163-185): per (tag, tipe) key, in first-seen
order, the sum of `nominal` over every non-blank tag occurrence. -/
def tagDataOf (txs : List Txn) : List (String × String × Int) :=
  txs.foldl
    (fun acc tx =>
      tx.tags.foldl
        (fun acc tagName =>
          if isBlankTag tagName then acc
          else upsertTagData acc tagName tx.tipe tx.nominal)
        acc)
    []

/-- Overwrite (not increment) the balance of the category with the given
natural key — `existingCategory.balance = categoryData.balance`. -/
def setCatBalance : List Category → Nat → String → String → Int → List Category
  | [], _, _, _, _ => []
  | c :: rest, uid, name, ty, b =>
    if catMatches c uid name ty then { c with balance := b } :: rest
    else c :: setCatBalance rest uid name ty b

/-- One iteration of the category-writing loop of
`generateCategoriesFromTags` (lines 192-217): the existence check runs
against the snapshot `existingCategories` fetched before the loop; an
existing category has its balance overwritten, a missing one is created
with the computed balance. -/
def genWriteStep (snapshot : List Category) (uid : Nat)
    (cats : List Category) (entry : String × String × Int) : List Category :=
  if (snapshot.find? (fun c => catMatches c uid entry.1 entry.2.1)).isSome then
    setCatBalance cats uid entry.1 entry.2.1 entry.2.2
  else cats ++ [⟨uid, entry.1, entry.2.1, entry.2.2⟩]

/-- `generateCategoriesFromTags` (category controller, lines 149-231):
recompute every (tag, kind) sum from the account's transactions and upsert
each affected category to the freshly computed total. -/
def generateCategoriesFromTags (userId : Nat) (db : DB) : DB :=
  { db with
    categories :=
      (tagDataOf (db.transactions.filter (fun t => t.id_akun == userId))).foldl
        (genWriteStep db.categories userId) db.categories }

/-- The mutating ledger operations the claims quantify over. -/
inductive Op where
  | createTxn (req : CreateTxnReq)
  | updateTxn (txId : Nat) (body : UpdateTxnBody)
  | deleteTxn (txId : Nat)
  | createGoal (userId : Nat) (req : CreateGoalReq)
  | updateGoal (goalId : Nat) (body : UpdateGoalBody)
  | allocate (goalId : Nat) (req : FundsReq)
  | withdraw (goalId : Nat) (req : FundsReq)
  | rebuildCategories (userId : Nat)
deriving DecidableEq

/-- The state visible after an operation: the committed state on success,
the untouched prior state when the session aborted with an error. -/
def commit (r : Except Err DB) (db : DB) : DB :=
  match r with
  | .ok db' => db'
  | .error _ => db

/-- Run one operation; an error aborts the mongoose session, so the state
is unchanged. -/
def applyOp (op : Op) (db : DB) : DB :=
  match op with
  | .createTxn req => commit ((createTransaction req db).map (·.2)) db
  | .updateTxn txId body => commit ((updateTransaction txId body db).map (·.2)) db
  | .deleteTxn txId => commit (deleteTransaction txId db) db
  | .createGoal uid req => commit ((createGoal uid req db).map (·.2)) db
  | .updateGoal gid body => commit ((updateGoal gid body db).map (·.2)) db
  | .allocate gid req => commit ((allocateFunds gid req db).map (·.2)) db
  | .withdraw gid req => commit ((withdrawFunds gid req db).map (·.2)) db
  | .rebuildCategories uid => generateCategoriesFromTags uid db

/-- Run a sequence of committed operations. -/
def runOps (ops : List Op) (db : DB) : DB :=
  ops.foldl (fun d op => applyOp op d) db

/-! ## Spec-side sums and invariants -/

/-- The signed contribution of a stored transaction to its account
balance: `+nominal` for income, `-nominal` for expense. -/
def signedVal (tx : Txn) : Int :=
  if tx.tipe == "income" then tx.nominal
  else if tx.tipe == "expense" then -tx.nominal
  else 0

/-- The signed sum over the stored transactions of one account. -/
def signedSum (txs : List Txn) (uid : Nat) : Int :=
  ((txs.filter (fun t => t.id_akun == uid)).map signedVal).sum

/-- Balance conservation: every stored account's balance equals the signed
sum of its stored transactions. -/
def balancesMatch (db : DB) : Prop :=
  ∀ a ∈ db.accounts, a.balance = signedSum db.transactions a.id

instance : DecidablePred balancesMatch := fun db =>
  decidable_of_iff (∀ a ∈ db.accounts, a.balance = signedSum db.transactions a.id) Iff.rfl

/-- The contribution of one stored transaction to the category keyed
(uid, name, ty): its `nominal` when the transaction belongs to the account,
has that kind, and carries the tag. -/
def txContrib (tx : Txn) (uid : Nat) (name ty : String) : Int :=
  if tx.id_akun == uid && tx.tipe == ty && tx.tags.contains name then tx.nominal
  else 0

/-- The per-(account, tag, kind) sum of `nominal` over stored
transactions. -/
def catSum (txs : List Txn) (uid : Nat) (name ty : String) : Int :=
  (txs.map (fun t => txContrib t uid name ty)).sum

/-- Category totals match tags: every stored category's balance equals the
sum of `nominal` over the account's stored transactions carrying its name
as a tag with its kind. -/
def catsMatch (db : DB) : Prop :=
  ∀ c ∈ db.categories, c.balance = catSum db.transactions c.user_id c.name c.type

instance : DecidablePred catsMatch := fun db =>
  decidable_of_iff
    (∀ c ∈ db.categories, c.balance = catSum db.transactions c.user_id c.name c.type) Iff.rfl

/-- Goal bounds: every stored goal has a non-negative saved amount. -/
def goalsNonneg (db : DB) : Prop :=
  ∀ g ∈ db.goals, 0 ≤ g.saved_amount

instance : DecidablePred goalsNonneg := fun db =>
  decidable_of_iff (∀ g ∈ db.goals, 0 ≤ g.saved_amount) Iff.rfl

/-- The natural key of a category document. -/
def catKey (c : Category) : Nat × String × String :=
  (c.user_id, c.name, c.type)

/-- Mongo ids are unique per collection. -/
def acctIdsNodup (db : DB) : Prop :=
  (db.accounts.map Account.id).Nodup

instance : DecidablePred acctIdsNodup := fun db =>
  decidable_of_iff ((db.accounts.map Account.id).Nodup) Iff.rfl

/-- The category collection's unique compound index on
(user_id, name, type). -/
def catKeysNodup (cats : List Category) : Prop :=
  (cats.map catKey).Nodup

instance : DecidablePred catKeysNodup := fun cats =>
  decidable_of_iff ((cats.map catKey).Nodup) Iff.rfl

/-- Categories are only ever created from non-blank tags. -/
def catNamesGood (cats : List Category) : Prop :=
  ∀ c ∈ cats, isBlankTag c.name = false

instance : DecidablePred catNamesGood := fun cats =>
  decidable_of_iff (∀ c ∈ cats, isBlankTag c.name = false) Iff.rfl

/-- Duplicate-free tag lists on stored transactions. -/
def tagsNodup (txs : List Txn) : Prop :=
  ∀ t ∈ txs, t.tags.Nodup

instance : DecidablePred tagsNodup := fun txs =>
  decidable_of_iff (∀ t ∈ txs, t.tags.Nodup) Iff.rfl

/-- Every non-blank tag of every stored transaction already has its
category document. -/
def catsComplete (txs : List Txn) (cats : List Category) : Prop :=
  ∀ t ∈ txs, ∀ tag ∈ t.tags, isBlankTag tag = false →
    ∃ c ∈ cats, catMatches c t.id_akun tag t.tipe = true

instance (txs : List Txn) (cats : List Category) : Decidable (catsComplete txs cats) :=
  decidable_of_iff
    (∀ t ∈ txs, ∀ tag ∈ t.tags, isBlankTag tag = false →
      ∃ c ∈ cats, catMatches c t.id_akun tag t.tipe = true) Iff.rfl

/-- The balance stored under a category natural key (first match, the only
match when the keys are nodup). -/
def lookupBal (cats : List Category) (uid : Nat) (name ty : String) : Option Int :=
  (cats.find? (fun c => catMatches c uid name ty)).map Category.balance

/-- The balance stored under an account id. -/
def acctBal (accts : List Account) (id : Nat) : Option Int :=
  (accts.find? (fun a => a.id == id)).map Account.balance

/-- Per-transaction contribution to an account's signed sum. -/
def acctContrib (tx : Txn) (uid : Nat) : Int :=
  if tx.id_akun == uid then signedVal tx else 0

/-- Whether a transaction carries the category key (uid, name, ty) through
one of its non-blank tags. -/
def tagHit (tx : Txn) (uid : Nat) (name ty : String) : Bool :=
  tx.id_akun == uid && tx.tipe == ty && tx.tags.contains name && !isBlankTag name

/-- Pointwise balance bump: what `addToCategory` does to the (unique)
category matching the key. -/
def bumpCat (uid : Nat) (name ty : String) (a : Int) (c : Category) : Category :=
  if catMatches c uid name ty then { c with balance := c.balance + a } else c

/-- Pointwise form of one `updateCategoryBalances` pass over a tag list. -/
def bumpTags (uid : Nat) (ty : String) (a : Int) (tags : List String) (c : Category) :
    Category :=
  tags.foldl (fun c' t => if isBlankTag t then c' else bumpCat uid t ty a c') c

/-- How many non-blank tags of the list match a category's key. -/
def tagMatchCount (uid : Nat) (ty : String) (tags : List String) (c : Category) : Nat :=
  (tags.filter (fun t => !isBlankTag t && catMatches c uid t ty)).length

/-- The key-existence test of a category natural key in a list. -/
def presentCat (cats : List Category) (uid : Nat) (name ty : String) : Bool :=
  (cats.find? (fun c => catMatches c uid name ty)).isSome

/-- The (tag, kind) key of a `tagData` accumulator entry. -/
def tdKey (e : String × String × Int) : String × String :=
  (e.1, e.2.1)

/-- One pass of `updateCategoryBalances` abstracted over the tag list: the
per-tag find-or-create accumulation. -/
def applyTags (uid : Nat) (ty : String) (amt : Int) (tags : List String)
    (cats : List Category) : List Category :=
  tags.foldl
    (fun cs tagName =>
      if isBlankTag tagName then cs else addToCategory cs uid tagName ty amt)
    cats

/-- The update-transaction bodies that avoid the falsy-fallback pitfall of
`updateTransaction`: the body does not set `nominal` to the falsy value 0
nor `tipe` to the falsy empty string. -/
def bodyNotFalsy (body : UpdateTxnBody) : Prop :=
  body.nominal ≠ some 0 ∧ body.tipe ≠ some ""

/-- The operations quantified over by the balance-conservation claim:
transaction create/update/delete, with update bodies avoiding the falsy
fallback. -/
def conservesBalance : Op → Prop
  | .createTxn _ => True
  | .updateTxn _ body => bodyNotFalsy body
  | .deleteTxn _ => True
  | _ => False

/-- The operations quantified over by the amended category-totals claim:
transaction create/update/delete whose incoming tag lists are
duplicate-free. -/
def keepsCatTotals : Op → Prop
  | .createTxn req => (req.tags.getD []).Nodup
  | .updateTxn _ body => ∀ l, body.tags = some l → l.Nodup
  | .deleteTxn _ => True
  | _ => False

/-- Well-formedness of the category side of the store, maintained by the
engine: unique natural keys (the schema's compound unique index), category
names created only from non-blank tags, duplicate-free stored tag lists,
and a category document for every non-blank tag of every stored
transaction. -/
def catWF (db : DB) : Prop :=
  catKeysNodup db.categories ∧ catNamesGood db.categories ∧
    tagsNodup db.transactions ∧ catsComplete db.transactions db.categories

instance (db : DB) : Decidable (catWF db) :=
  decidable_of_iff
    (catKeysNodup db.categories ∧ catNamesGood db.categories ∧
      tagsNodup db.transactions ∧ catsComplete db.transactions db.categories) Iff.rfl

/-- Static well-formedness of a goal document, guaranteed by the schema
validators of every save path. -/
def goalDocWF (g : Goal) : Bool :=
  g.title != "" && decide (0 ≤ g.target_amount) && validStatus g.status

/-- The signed balance delta determined by a kind and an amount. -/
def signedOf (t : String) (n : Int) : Int :=
  if t == "income" then n else if t == "expense" then -n else 0

/-- The inductive invariant behind balance conservation: unique account
ids plus the conservation property itself. -/
def c1Inv (db : DB) : Prop :=
  acctIdsNodup db ∧ balancesMatch db

/-- The inductive invariant behind category totals: category/store
well-formedness plus the totals property itself. -/
def c2Inv (db : DB) : Prop :=
  catWF db ∧ catsMatch db

/-! ## Concrete fixtures used by witnesses and counterexamples -/

/-- One account with balance 0 and nothing else. -/
def dbOneAccount : DB :=
  ⟨[⟨0, 0⟩], [], [], [], 1⟩

/-- An account together with a goal owned by it. -/
def dbAccountGoal : DB :=
  ⟨[⟨0, 1000⟩], [], [], [⟨5, 0, "Trip Fund", 100, 0, "active"⟩], 1⟩

/-- A goal whose owning account id (7) has no account document. -/
def dbOrphanGoal : DB :=
  ⟨[], [], [], [⟨1, 7, "Trip", 100, 0, "active"⟩], 2⟩

/-- A goal with saved 40 of target 100. -/
def dbGoal40 : DB :=
  ⟨[⟨0, 0⟩], [], [], [⟨1, 0, "Trip", 100, 40, "active"⟩], 2⟩

/-- A completed goal with saved 120 of target 100. -/
def dbGoalDone : DB :=
  ⟨[⟨0, 0⟩], [], [], [⟨1, 0, "Trip", 100, 120, "completed"⟩], 2⟩

/-- An account, a stored income transaction of 100, and the matching state
of the ledger. -/
def dbOneIncome : DB :=
  ⟨[⟨0, 100⟩], [⟨1, 0, "income", "gaji", 100, "lainnya", []⟩], [], [], 2⟩

/-- An account with an expense transaction of 300 tagged food, and the
matching category. -/
def dbFood : DB :=
  ⟨[⟨0, -300⟩], [⟨1, 0, "expense", "makan", 300, "lainnya", ["food"]⟩],
    [⟨0, "food", "expense", 300⟩], [], 2⟩

/-- Two transactions sharing tag x, plus a stale x category, for the
rebuild fixture. -/
def dbRebuild : DB :=
  ⟨[⟨0, 3⟩], [⟨1, 0, "income", "a", 10, "lainnya", ["x", "y"]⟩,
      ⟨2, 0, "expense", "b", 7, "lainnya", ["x"]⟩],
    [⟨0, "x", "income", 999⟩], [], 3⟩

/-! ## Lemmas: lookups, list surgery, signed sums -/

theorem find?_mem_pos {α : Type} {p : α → Bool} {l : List α} {a : α}
    (h : l.find? p = some a) : a ∈ l ∧ p a = true :=
  ⟨List.mem_of_find?_eq_some h, List.find?_some h⟩

theorem findAccount_mem {db : DB} {id : Nat} {a : Account}
    (h : findAccount db id = some a) : a ∈ db.accounts ∧ a.id = id := by
  obtain ⟨hm, hp⟩ := find?_mem_pos h
  exact ⟨hm, by simpa using hp⟩

theorem find?_account_of_mem_nodup {l : List Account} {a : Account} {id : Nat}
    (hnd : (l.map Account.id).Nodup) (ha : a ∈ l) (hid : a.id = id) :
    l.find? (fun x => x.id == id) = some a := by
  induction l with
  | nil => cases ha
  | cons b rest ih =>
    simp only [List.map_cons, List.nodup_cons] at hnd
    rcases List.mem_cons.mp ha with rfl | ha'
    · simp [hid]
    · have hb : b.id ≠ id := by
        intro hbid
        apply hnd.1
        rw [hbid, ← hid]
        exact List.mem_map_of_mem Account.id ha'
      rw [List.find?_cons_of_neg _ (by simpa using hb)]
      exact ih hnd.2 ha'

theorem setAccountBalance_map_id (l : List Account) (id : Nat) (b : Int) :
    (setAccountBalance l id b).map Account.id = l.map Account.id := by
  induction l with
  | nil => rfl
  | cons a rest ih =>
    by_cases h : (a.id == id) = true <;>
      simp [setAccountBalance, h, ih]

theorem setAccountBalance_eq_map {l : List Account} {id : Nat} (b : Int)
    (hnd : (l.map Account.id).Nodup) :
    setAccountBalance l id b =
      l.map (fun a => if a.id == id then { a with balance := b } else a) := by
  induction l with
  | nil => rfl
  | cons a rest ih =>
    simp only [List.map_cons, List.nodup_cons] at hnd
    by_cases h : (a.id == id) = true
    · have haid : a.id = id := by simpa using h
      have hmap : rest.map (fun x => if x.id == id then { x with balance := b } else x)
          = rest := by
        have hall : ∀ x ∈ rest,
            (if x.id == id then { x with balance := b } else x) = x := by
          intro x hx
          have hx' : ¬ x.id = id := by
            intro hxid
            apply hnd.1
            rw [haid, ← hxid]
            exact List.mem_map_of_mem Account.id hx
          simp [hx']
        rw [List.map_congr_left hall]
        exact rest.map_id
      simp only [setAccountBalance, if_pos h, List.map_cons, hmap]
    · simp only [setAccountBalance, if_neg h, List.map_cons, ih hnd.2]

theorem signedVal_eq (tx : Txn) : signedVal tx = signedOf tx.tipe tx.nominal := rfl

theorem applyBalance_eq (b : Int) (t : String) (n : Int) :
    applyBalance b t n = b + signedOf t n := by
  unfold applyBalance signedOf
  by_cases h1 : (t == "income") = true <;> by_cases h2 : (t == "expense") = true <;>
    simp [h1, h2] <;> ring

theorem revertBalance_eq (b : Int) (t : String) (n : Int) :
    revertBalance b t n = b - signedOf t n := by
  unfold revertBalance signedOf
  by_cases h1 : (t == "income") = true <;> by_cases h2 : (t == "expense") = true <;>
    simp [h1, h2] <;> ring

theorem signedSum_cons (t : Txn) (rest : List Txn) (uid : Nat) :
    signedSum (t :: rest) uid = acctContrib t uid + signedSum rest uid := by
  by_cases h : (t.id_akun == uid) = true <;>
    simp [signedSum, List.filter_cons, h, acctContrib]

theorem signedSum_append_single (txs : List Txn) (tx : Txn) (uid : Nat) :
    signedSum (txs ++ [tx]) uid = signedSum txs uid + acctContrib tx uid := by
  induction txs with
  | nil => simp [signedSum_cons]; simp [signedSum]
  | cons t rest ih =>
    rw [List.cons_append, signedSum_cons, signedSum_cons, ih]
    ring

theorem signedSum_replaceTxn {txs : List Txn} {i : Nat} {orig : Txn} (u : Txn) (uid : Nat)
    (h : txs.find? (fun t => t.id == i) = some orig) :
    signedSum (replaceTxn txs i u) uid =
      signedSum txs uid - acctContrib orig uid + acctContrib u uid := by
  induction txs with
  | nil => simp at h
  | cons t rest ih =>
    by_cases ht : (t.id == i) = true
    · simp only [List.find?_cons, ht] at h
      cases h
      simp only [replaceTxn, if_pos ht]
      rw [signedSum_cons, signedSum_cons]
      ring
    · have ht' : ((fun t : Txn => t.id == i) t) = false := by
        simpa using ht
      simp only [List.find?_cons, ht'] at h
      simp only [replaceTxn, if_neg ht]
      rw [signedSum_cons, signedSum_cons, ih h]
      ring

theorem signedSum_eraseTxn {txs : List Txn} {i : Nat} {tx : Txn} (uid : Nat)
    (h : txs.find? (fun t => t.id == i) = some tx) :
    signedSum (eraseTxn txs i) uid = signedSum txs uid - acctContrib tx uid := by
  induction txs with
  | nil => simp at h
  | cons t rest ih =>
    by_cases ht : (t.id == i) = true
    · simp only [List.find?_cons, ht] at h
      cases h
      simp only [eraseTxn, if_pos ht]
      rw [signedSum_cons]
      ring
    · have ht' : ((fun t : Txn => t.id == i) t) = false := by
        simpa using ht
      simp only [List.find?_cons, ht'] at h
      simp only [eraseTxn, if_neg ht]
      rw [signedSum_cons, signedSum_cons, ih h]
      ring

theorem fallbackTipe_eq_getD {t : Option String} {orig : String} (h : t ≠ some "") :
    fallbackTipe t orig = t.getD orig := by
  cases t with
  | none => rfl
  | some v =>
    have hv : v ≠ "" := fun hveq => h (by rw [hveq])
    simp [fallbackTipe, hv]

theorem fallbackNominal_eq_getD {n : Option Int} {orig : Int} (h : n ≠ some 0) :
    fallbackNominal n orig = n.getD orig := by
  cases n with
  | none => rfl
  | some v =>
    have hv : v ≠ 0 := fun hveq => h (by rw [hveq])
    simp [fallbackNominal, hv]

/-! ## Lemmas: balance conservation -/

theorem balancesMatch_setBalance {db : DB} {uid : Nat} {account : Account} {delta : Int}
    {txs' : List Txn}
    (hnd : acctIdsNodup db) (hbm : balancesMatch db)
    (hacct : findAccount db uid = some account)
    (hsum : ∀ i : Nat,
      signedSum txs' i = signedSum db.transactions i + (if uid == i then delta else 0)) :
    ∀ a' ∈ setAccountBalance db.accounts uid (account.balance + delta),
      a'.balance = signedSum txs' a'.id := by
  intro a' ha'
  rw [setAccountBalance_eq_map _ hnd] at ha'
  obtain ⟨a, ha, rfl⟩ := List.mem_map.mp ha'
  by_cases h : (a.id == uid) = true
  · have haid : a.id = uid := by simpa using h
    have hfa : findAccount db uid = some a := find?_account_of_mem_nodup hnd ha haid
    have haeq : account = a := Option.some.inj (hacct.symm.trans hfa)
    have hu : (uid == a.id) = true := by simp [haid]
    simp only [if_pos h]
    show account.balance + delta = signedSum txs' a.id
    rw [haeq, hbm a ha, hsum a.id, if_pos hu]
  · have h' : ¬ a.id = uid := by simpa using h
    have hu : (uid == a.id) = false := beq_eq_false_iff_ne.mpr (fun hq => h' hq.symm)
    simp only [if_neg h]
    rw [hbm a ha, hsum a.id, hu]
    simp

theorem c1Inv_createTxn (req : CreateTxnReq) {db : DB} (h : c1Inv db) :
    c1Inv (applyOp (.createTxn req) db) := by
  obtain ⟨hnd, hbm⟩ := h
  by_cases hval : txnValid (reqTxn req db.nextId) = true
  · rcases hacct : findAccount db req.id_akun with _ | account
    · simp only [applyOp, createTransaction, hval, hacct, Bool.not_true,
        Bool.false_eq_true, if_false, Except.map, commit]
      exact ⟨hnd, hbm⟩
    · simp only [applyOp, createTransaction, hval, hacct, Bool.not_true,
        Bool.false_eq_true, if_false, Except.map, commit]
      constructor
      · simpa [acctIdsNodup, setAccountBalance_map_id] using hnd
      · intro a' ha'
        rw [applyBalance_eq] at ha'
        refine balancesMatch_setBalance hnd hbm hacct ?_ a' ha'
        intro i
        show signedSum (db.transactions ++ [reqTxn req db.nextId]) i = _
        rw [signedSum_append_single] <;> rfl
  · have hval' : (!txnValid (reqTxn req db.nextId)) = true := by
      simp [hval]
    simp only [applyOp, createTransaction, hval', if_true, Except.map, commit]
    exact ⟨hnd, hbm⟩

theorem c1Inv_updateTxn (txId : Nat) (body : UpdateTxnBody) {db : DB}
    (hop : bodyNotFalsy body) (h : c1Inv db) :
    c1Inv (applyOp (.updateTxn txId body) db) := by
  obtain ⟨hnd, hbm⟩ := h
  rcases hfind : findTxn db txId with _ | orig
  · simp only [applyOp, updateTransaction, hfind, Except.map, commit]
    exact ⟨hnd, hbm⟩
  · rcases hacct : findAccount db orig.id_akun with _ | account
    · simp only [applyOp, updateTransaction, hfind, hacct, Except.map, commit]
      exact ⟨hnd, hbm⟩
    · simp only [applyOp, updateTransaction, hfind, hacct, Except.map, commit]
      have hb2 : applyBalance (revertBalance account.balance orig.tipe orig.nominal)
          (fallbackTipe body.tipe orig.tipe) (fallbackNominal body.nominal orig.nominal) =
          account.balance +
            (signedOf (mergedTxn body orig).tipe (mergedTxn body orig).nominal -
              signedOf orig.tipe orig.nominal) := by
        rw [applyBalance_eq, revertBalance_eq,
          fallbackTipe_eq_getD hop.2, fallbackNominal_eq_getD hop.1]
        simp only [mergedTxn]
        ring
      constructor
      · simpa [acctIdsNodup, setAccountBalance_map_id] using hnd
      · intro a' ha'
        rw [hb2] at ha'
        refine balancesMatch_setBalance hnd hbm hacct ?_ a' ha'
        intro i
        show signedSum (replaceTxn db.transactions txId (mergedTxn body orig)) i = _
        rw [signedSum_replaceTxn (mergedTxn body orig) i hfind]
        have hid : (mergedTxn body orig).id_akun = orig.id_akun := rfl
        simp only [acctContrib, hid, signedVal_eq]
        by_cases hi : (orig.id_akun == i) = true
        · simp only [if_pos hi]
          ring
        · simp only [if_neg hi]
          ring

theorem c1Inv_deleteTxn (txId : Nat) {db : DB} (h : c1Inv db) :
    c1Inv (applyOp (.deleteTxn txId) db) := by
  obtain ⟨hnd, hbm⟩ := h
  rcases hfind : findTxn db txId with _ | tx
  · simp only [applyOp, deleteTransaction, hfind, commit]
    exact ⟨hnd, hbm⟩
  · rcases hacct : findAccount db tx.id_akun with _ | account
    · simp only [applyOp, deleteTransaction, hfind, hacct, commit]
      exact ⟨hnd, hbm⟩
    · simp only [applyOp, deleteTransaction, hfind, hacct, commit]
      have hb2 : revertBalance account.balance tx.tipe tx.nominal =
          account.balance + (-signedVal tx) := by
        rw [revertBalance_eq, signedVal_eq]
        ring
      constructor
      · simpa [acctIdsNodup, setAccountBalance_map_id] using hnd
      · intro a' ha'
        rw [hb2] at ha'
        refine balancesMatch_setBalance hnd hbm hacct ?_ a' ha'
        intro i
        show signedSum (eraseTxn db.transactions txId) i = _
        rw [signedSum_eraseTxn i hfind]
        simp only [acctContrib]
        by_cases hi : (tx.id_akun == i) = true
        · simp only [if_pos hi]
          ring
        · simp only [if_neg hi]
          ring

theorem c1Inv_applyOp {db : DB} {op : Op} (hop : conservesBalance op) (h : c1Inv db) :
    c1Inv (applyOp op db) := by
  cases op with
  | createTxn req => exact c1Inv_createTxn req h
  | updateTxn txId body => exact c1Inv_updateTxn txId body hop h
  | deleteTxn txId => exact c1Inv_deleteTxn txId h
  | createGoal uid req => exact hop.elim
  | updateGoal gid body => exact hop.elim
  | allocate gid req => exact hop.elim
  | withdraw gid req => exact hop.elim
  | rebuildCategories uid => exact hop.elim

theorem c1Inv_runOps {db : DB} {ops : List Op}
    (hops : ∀ op ∈ ops, conservesBalance op) (h : c1Inv db) :
    c1Inv (runOps ops db) := by
  induction ops generalizing db with
  | nil => exact h
  | cons op rest ih =>
    exact ih (fun o ho => hops o (List.mem_cons_of_mem op ho))
      (c1Inv_applyOp (hops op (List.mem_cons_self op rest)) h)

/-! ## Lemmas: category lookup after find-or-create passes -/

theorem updateCategoryBalances_eq_applyTags (tx : Txn) (rev : Bool) (cats : List Category) :
    updateCategoryBalances tx rev cats =
      applyTags tx.id_akun tx.tipe (if rev then -tx.nominal else tx.nominal) tx.tags cats :=
  rfl

theorem catMatches_iff (c : Category) (uid : Nat) (name ty : String) :
    catMatches c uid name ty = true ↔ c.user_id = uid ∧ c.name = name ∧ c.type = ty := by
  simp [catMatches, and_assoc]

theorem presentCat_eq_lookup_isSome (cats : List Category) (uid : Nat) (name ty : String) :
    presentCat cats uid name ty = (lookupBal cats uid name ty).isSome := by
  simp [presentCat, lookupBal]

theorem presentCat_iff_mem_keys (cats : List Category) (uid : Nat) (name ty : String) :
    presentCat cats uid name ty = true ↔ (uid, name, ty) ∈ cats.map catKey := by
  constructor
  · intro h
    simp only [presentCat, Option.isSome_iff_exists] at h
    obtain ⟨c, hc⟩ := h
    obtain ⟨hm, hp⟩ := find?_mem_pos hc
    obtain ⟨h1, h2, h3⟩ := (catMatches_iff c uid name ty).mp hp
    exact List.mem_map.mpr ⟨c, hm, by simp [catKey, h1, h2, h3]⟩
  · intro h
    obtain ⟨c, hm, hk⟩ := List.mem_map.mp h
    simp only [catKey, Prod.mk.injEq] at hk
    simp only [presentCat, Option.isSome_iff_exists]
    have hfind : cats.find? (fun c => catMatches c uid name ty) ≠ none := by
      intro hnone
      have := List.find?_eq_none.mp hnone c hm
      exact this ((catMatches_iff c uid name ty).mpr ⟨hk.1, hk.2.1, hk.2.2⟩)
    rcases hx : cats.find? (fun c => catMatches c uid name ty) with _ | c'
    · exact absurd hx hfind
    · exact ⟨c', rfl⟩

theorem lookupBal_addToCategory_self (cats : List Category) (uid : Nat) (name ty : String)
    (a : Int) :
    lookupBal (addToCategory cats uid name ty a) uid name ty =
      some ((lookupBal cats uid name ty).getD 0 + a) := by
  induction cats with
  | nil => simp [addToCategory, lookupBal, catMatches]
  | cons c rest ih =>
    by_cases h : catMatches c uid name ty = true
    · have h' : catMatches { c with balance := c.balance + a } uid name ty = true := h
      simp only [addToCategory, if_pos h, lookupBal, List.find?_cons]
      simp [h, h']
    · have hf : catMatches c uid name ty = false := by simpa using h
      have hf' : catMatches { c with balance := c.balance + a } uid name ty = false := hf
      simp only [addToCategory, if_neg h, lookupBal, List.find?_cons]
      simp only [hf]
      simpa [lookupBal] using ih

theorem lookupBal_addToCategory_ne (cats : List Category) {uid : Nat} {name ty : String}
    (a : Int) {uid' : Nat} {name' ty' : String}
    (h : ¬(uid' = uid ∧ name' = name ∧ ty' = ty)) :
    lookupBal (addToCategory cats uid name ty a) uid' name' ty' =
      lookupBal cats uid' name' ty' := by
  induction cats with
  | nil =>
    have hm : catMatches ⟨uid, name, ty, a⟩ uid' name' ty' = false := by
      rcases hx : catMatches ⟨uid, name, ty, a⟩ uid' name' ty' with _ | _
      · rfl
      · obtain ⟨h1, h2, h3⟩ := (catMatches_iff _ uid' name' ty').mp hx
        exact absurd ⟨h1.symm, h2.symm, h3.symm⟩ h
    simp [addToCategory, lookupBal, hm]
  | cons c rest ih =>
    by_cases hc : catMatches c uid name ty = true
    · have hcne : catMatches c uid' name' ty' = false := by
        rcases hx : catMatches c uid' name' ty' with _ | _
        · rfl
        · obtain ⟨h1, h2, h3⟩ := (catMatches_iff _ uid' name' ty').mp hx
          obtain ⟨g1, g2, g3⟩ := (catMatches_iff _ uid name ty).mp hc
          exact absurd ⟨h1 ▸ g1, h2 ▸ g2, h3 ▸ g3⟩ h
      have hcne' : catMatches { c with balance := c.balance + a } uid' name' ty' = false :=
        hcne
      simp only [addToCategory, if_pos hc, lookupBal, List.find?_cons]
      simp only [hcne, hcne']
    · simp only [addToCategory, if_neg hc, lookupBal, List.find?_cons]
      rcases hk : catMatches c uid' name' ty' with _ | _
      · simpa [lookupBal] using ih
      · rfl

theorem addToCategory_eq_append {cats : List Category} {uid : Nat} {name ty : String}
    (a : Int) (h : presentCat cats uid name ty = false) :
    addToCategory cats uid name ty a = cats ++ [⟨uid, name, ty, a⟩] := by
  induction cats with
  | nil => rfl
  | cons c rest ih =>
    simp only [presentCat, List.find?_cons] at h ih
    rcases hc : catMatches c uid name ty with _ | _
    · rw [hc] at h
      simp only [addToCategory, hc, Bool.false_eq_true, if_false, List.cons_append]
      rw [ih h]
    · rw [hc] at h
      simp at h

theorem catKeys_addToCategory_present {cats : List Category} {uid : Nat} {name ty : String}
    (a : Int) (h : presentCat cats uid name ty = true) :
    (addToCategory cats uid name ty a).map catKey = cats.map catKey := by
  induction cats with
  | nil => simp [presentCat] at h
  | cons c rest ih =>
    simp only [presentCat, List.find?_cons] at h ih
    rcases hc : catMatches c uid name ty with _ | _
    · rw [hc] at h
      simp only [addToCategory, hc, Bool.false_eq_true, if_false, List.map_cons]
      rw [ih h]
    · simp only [addToCategory, hc, if_true, List.map_cons]
      rfl

theorem catKeysNodup_addToCategory {cats : List Category} {uid : Nat} {name ty : String}
    (a : Int) (hnd : catKeysNodup cats) :
    catKeysNodup (addToCategory cats uid name ty a) := by
  rcases hp : presentCat cats uid name ty with _ | _
  · rw [addToCategory_eq_append a hp]
    have hk : (uid, name, ty) ∉ cats.map catKey := by
      intro hmem
      rw [(presentCat_iff_mem_keys cats uid name ty).mpr hmem] at hp
      cases hp
    unfold catKeysNodup at hnd ⊢
    rw [List.map_append, List.nodup_append]
    refine ⟨hnd, by simp, ?_⟩
    intro x hx hy
    simp only [List.map_cons, List.map_nil, List.mem_singleton, catKey] at hy
    subst hy
    exact hk hx
  · unfold catKeysNodup
    rw [catKeys_addToCategory_present a hp]
    exact hnd

theorem catNamesGood_addToCategory {cats : List Category} {uid : Nat} {name ty : String}
    (a : Int) (hn : catNamesGood cats) (hname : isBlankTag name = false) :
    catNamesGood (addToCategory cats uid name ty a) := by
  induction cats with
  | nil =>
    intro c hc
    simp only [addToCategory, List.mem_singleton] at hc
    subst hc
    exact hname
  | cons c rest ih =>
    by_cases hc : catMatches c uid name ty = true
    · intro x hx
      simp only [addToCategory, if_pos hc, List.mem_cons] at hx
      rcases hx with rfl | hx
      · exact hn c (List.mem_cons_self c rest)
      · exact hn x (List.mem_cons_of_mem c hx)
    · intro x hx
      simp only [addToCategory, if_neg hc, List.mem_cons] at hx
      rcases hx with rfl | hx
      · exact hn x (List.mem_cons_self x rest)
      · exact ih (fun y hy => hn y (List.mem_cons_of_mem c hy)) x hx

theorem applyTags_cons (uid : Nat) (ty : String) (amt : Int) (t : String)
    (ts : List String) (cats : List Category) :
    applyTags uid ty amt (t :: ts) cats =
      applyTags uid ty amt ts
        (if isBlankTag t then cats else addToCategory cats uid t ty amt) :=
  rfl

theorem lookupBal_applyTags {tags : List String} (hnd : tags.Nodup)
    (uid : Nat) (ty : String) (amt : Int) (cats : List Category)
    (uid' : Nat) (name' ty' : String) :
    lookupBal (applyTags uid ty amt tags cats) uid' name' ty' =
      if uid' = uid ∧ ty' = ty ∧ name' ∈ tags ∧ isBlankTag name' = false then
        some ((lookupBal cats uid' name' ty').getD 0 + amt)
      else lookupBal cats uid' name' ty' := by
  induction tags generalizing cats with
  | nil => simp [applyTags]
  | cons t ts ih =>
    rw [List.nodup_cons] at hnd
    obtain ⟨hnt, hndts⟩ := hnd
    rcases hb : isBlankTag t with _ | _
    · rw [applyTags_cons, hb]
      simp only [Bool.false_eq_true, if_false]
      rw [ih hndts]
      by_cases hcond : uid' = uid ∧ ty' = ty ∧ name' ∈ ts ∧ isBlankTag name' = false
      · rw [if_pos hcond]
        have hne : name' ≠ t := fun he => hnt (he ▸ hcond.2.2.1)
        rw [lookupBal_addToCategory_ne _ _ (fun hh => hne hh.2.1),
          if_pos ⟨hcond.1, hcond.2.1, List.mem_cons_of_mem t hcond.2.2.1, hcond.2.2.2⟩]
      · rw [if_neg hcond]
        by_cases hcond2 : uid' = uid ∧ ty' = ty ∧ name' ∈ t :: ts ∧ isBlankTag name' = false
        · obtain ⟨h1, h2, h3, h4⟩ := hcond2
          have hnamet : name' = t := by
            rcases List.mem_cons.mp h3 with he | hin
            · exact he
            · exact absurd ⟨h1, h2, hin, h4⟩ hcond
          rw [if_pos ⟨h1, h2, h3, h4⟩]
          subst hnamet
          subst h1
          subst h2
          rw [lookupBal_addToCategory_self]
        · rw [if_neg hcond2]
          refine lookupBal_addToCategory_ne _ _ ?_
          rintro ⟨h1, h2, h3⟩
          exact hcond2 ⟨h1, h3, h2 ▸ List.mem_cons_self t ts, h2 ▸ hb⟩
    · rw [applyTags_cons, hb]
      simp only [if_true]
      rw [ih hndts]
      by_cases hcond : uid' = uid ∧ ty' = ty ∧ name' ∈ ts ∧ isBlankTag name' = false
      · rw [if_pos hcond,
          if_pos ⟨hcond.1, hcond.2.1, List.mem_cons_of_mem t hcond.2.2.1, hcond.2.2.2⟩]
      · rw [if_neg hcond, if_neg ?_]
        rintro ⟨h1, h2, h3, h4⟩
        rcases List.mem_cons.mp h3 with he | hin
        · rw [he] at h4
          rw [h4] at hb
          cases hb
        · exact hcond ⟨h1, h2, hin, h4⟩

theorem catKeysNodup_applyTags {tags : List String} (uid : Nat) (ty : String) (amt : Int)
    {cats : List Category} (hnd : catKeysNodup cats) :
    catKeysNodup (applyTags uid ty amt tags cats) := by
  induction tags generalizing cats with
  | nil => exact hnd
  | cons t ts ih =>
    rw [applyTags_cons]
    rcases hb : isBlankTag t with _ | _
    · simp only [Bool.false_eq_true, if_false]
      exact ih (catKeysNodup_addToCategory amt hnd)
    · simp only [if_true]
      exact ih hnd

theorem catNamesGood_applyTags {tags : List String} (uid : Nat) (ty : String) (amt : Int)
    {cats : List Category} (hn : catNamesGood cats) :
    catNamesGood (applyTags uid ty amt tags cats) := by
  induction tags generalizing cats with
  | nil => exact hn
  | cons t ts ih =>
    rw [applyTags_cons]
    rcases hb : isBlankTag t with _ | _
    · simp only [Bool.false_eq_true, if_false]
      exact ih (catNamesGood_addToCategory amt hn hb)
    · simp only [if_true]
      exact ih hn

theorem presentCat_mono_addToCategory {cats : List Category} {uid : Nat}
    {name ty : String} (a : Int) {uid' : Nat} {name' ty' : String}
    (h : presentCat cats uid' name' ty' = true) :
    presentCat (addToCategory cats uid name ty a) uid' name' ty' = true := by
  by_cases heq : uid' = uid ∧ name' = name ∧ ty' = ty
  · obtain ⟨rfl, rfl, rfl⟩ := heq
    rw [presentCat_eq_lookup_isSome, lookupBal_addToCategory_self]
    rfl
  · rw [presentCat_eq_lookup_isSome, lookupBal_addToCategory_ne _ _ heq,
      ← presentCat_eq_lookup_isSome]
    exact h

theorem presentCat_mono_applyTags {tags : List String} (uid : Nat) (ty : String)
    (amt : Int) {cats : List Category} {uid' : Nat} {name' ty' : String}
    (h : presentCat cats uid' name' ty' = true) :
    presentCat (applyTags uid ty amt tags cats) uid' name' ty' = true := by
  induction tags generalizing cats with
  | nil => exact h
  | cons t ts ih =>
    rw [applyTags_cons]
    rcases hb : isBlankTag t with _ | _
    · simp only [Bool.false_eq_true, if_false]
      exact ih (presentCat_mono_addToCategory amt h)
    · simp only [if_true]
      exact ih h

theorem presentCat_applyTags_of_tag {tags : List String} (hnd : tags.Nodup)
    (uid : Nat) (ty : String) (amt : Int) (cats : List Category)
    {tg : String} (htg : tg ∈ tags) (hb : isBlankTag tg = false) :
    presentCat (applyTags uid ty amt tags cats) uid tg ty = true := by
  rw [presentCat_eq_lookup_isSome, lookupBal_applyTags hnd,
    if_pos ⟨rfl, rfl, htg, hb⟩]
  rfl

/-! ## Lemmas: pointwise form of category passes, reversal cancellation -/

theorem catKey_bumpCat (uid : Nat) (name ty : String) (a : Int) (c : Category) :
    catKey (bumpCat uid name ty a c) = catKey c := by
  unfold bumpCat
  split <;> rfl

theorem bumpTags_nil (uid : Nat) (ty : String) (amt : Int) (c : Category) :
    bumpTags uid ty amt [] c = c := rfl

theorem bumpTags_cons (uid : Nat) (ty : String) (amt : Int) (t : String)
    (ts : List String) (c : Category) :
    bumpTags uid ty amt (t :: ts) c =
      bumpTags uid ty amt ts (if isBlankTag t then c else bumpCat uid t ty amt c) :=
  rfl

theorem addToCategory_eq_map_bump {cats : List Category} {uid : Nat} {name ty : String}
    (a : Int) (hnd : catKeysNodup cats) (hp : presentCat cats uid name ty = true) :
    addToCategory cats uid name ty a = cats.map (bumpCat uid name ty a) := by
  induction cats with
  | nil => simp [presentCat] at hp
  | cons c rest ih =>
    unfold catKeysNodup at hnd
    rw [List.map_cons, List.nodup_cons] at hnd
    rcases hc : catMatches c uid name ty with _ | _
    · simp only [presentCat, List.find?_cons] at hp
      rw [hc] at hp
      simp only [addToCategory, hc, Bool.false_eq_true, if_false, List.map_cons]
      rw [ih hnd.2 hp]
      congr 1
      unfold bumpCat
      rw [hc]
      simp
    · simp only [addToCategory, hc, if_true, List.map_cons]
      have hrest : ∀ x ∈ rest, bumpCat uid name ty a x = x := by
        intro x hx
        unfold bumpCat
        rcases hxm : catMatches x uid name ty with _ | _
        · simp
        · obtain ⟨x1, x2, x3⟩ := (catMatches_iff x uid name ty).mp hxm
          obtain ⟨c1, c2, c3⟩ := (catMatches_iff c uid name ty).mp hc
          have : catKey c ∈ rest.map catKey := by
            refine List.mem_map.mpr ⟨x, hx, ?_⟩
            simp [catKey, x1, x2, x3, c1, c2, c3]
          exact absurd this hnd.1
      congr 1
      · unfold bumpCat
        rw [hc]
        simp
      · rw [List.map_congr_left hrest]
        exact rest.map_id.symm

theorem keys_map_bumpCat (cats : List Category) (uid : Nat) (name ty : String) (a : Int) :
    (cats.map (bumpCat uid name ty a)).map catKey = cats.map catKey := by
  rw [List.map_map]
  apply List.map_congr_left
  intro c _
  exact catKey_bumpCat uid name ty a c

theorem applyTags_eq_map {tags : List String} {cats : List Category}
    (uid : Nat) (ty : String) (amt : Int) (hnd : catKeysNodup cats)
    (hall : ∀ t ∈ tags, isBlankTag t = false → presentCat cats uid t ty = true) :
    applyTags uid ty amt tags cats = cats.map (bumpTags uid ty amt tags) := by
  induction tags generalizing cats with
  | nil =>
    show cats = cats.map (fun c => c)
    exact cats.map_id.symm
  | cons t ts ih =>
    rw [applyTags_cons]
    rcases hb : isBlankTag t with _ | _
    · simp only [Bool.false_eq_true, if_false]
      rw [addToCategory_eq_map_bump amt hnd (hall t (List.mem_cons_self t ts) hb)]
      have hnd' : catKeysNodup (cats.map (bumpCat uid t ty amt)) := by
        unfold catKeysNodup
        rw [keys_map_bumpCat]
        exact hnd
      have hall' : ∀ t' ∈ ts, isBlankTag t' = false →
          presentCat (cats.map (bumpCat uid t ty amt)) uid t' ty = true := by
        intro t' ht' hb'
        rw [presentCat_iff_mem_keys, keys_map_bumpCat,
          ← presentCat_iff_mem_keys]
        exact hall t' (List.mem_cons_of_mem t ht') hb'
      rw [ih hnd' hall', List.map_map]
      apply List.map_congr_left
      intro c _
      show bumpTags uid ty amt ts (bumpCat uid t ty amt c) = bumpTags uid ty amt (t :: ts) c
      rw [bumpTags_cons, hb]
      simp only [Bool.false_eq_true, if_false]
    · simp only [if_true]
      rw [ih hnd (fun t' ht' hb' => hall t' (List.mem_cons_of_mem t ht') hb')]
      apply List.map_congr_left
      intro c _
      rw [bumpTags_cons, hb]
      simp only [if_true]

theorem tagMatchCount_bal (uid : Nat) (ty : String) (ts : List String) (c : Category)
    (x : Int) :
    tagMatchCount uid ty ts { c with balance := x } = tagMatchCount uid ty ts c :=
  rfl

theorem bumpTags_balance (uid : Nat) (ty : String) (amt : Int) (tags : List String)
    (c : Category) :
    bumpTags uid ty amt tags c =
      { c with balance := c.balance + amt * (tagMatchCount uid ty tags c : Int) } := by
  induction tags generalizing c with
  | nil =>
    show c = _
    simp [tagMatchCount]
  | cons t ts ih =>
    rw [bumpTags_cons]
    rcases hb : isBlankTag t with _ | _
    · simp only [Bool.false_eq_true, if_false]
      unfold bumpCat
      rcases hm : catMatches c uid t ty with _ | _
      · simp only [Bool.false_eq_true, if_false]
        rw [ih]
        have hcnt : tagMatchCount uid ty (t :: ts) c = tagMatchCount uid ty ts c := by
          unfold tagMatchCount
          rw [List.filter_cons]
          simp [hb, hm]
        rw [hcnt]
      · simp only [if_true]
        rw [ih]
        rw [tagMatchCount_bal]
        have hcnt : tagMatchCount uid ty (t :: ts) c = tagMatchCount uid ty ts c + 1 := by
          unfold tagMatchCount
          rw [List.filter_cons]
          simp [hb, hm, Nat.add_comm]
        rw [hcnt]
        show ({ c with balance := (c.balance + amt) + amt * (tagMatchCount uid ty ts c : Int) } : Category) = _
        congr 1
        push_cast
        ring
    · simp only [if_true]
      rw [ih]
      have hcnt : tagMatchCount uid ty (t :: ts) c = tagMatchCount uid ty ts c := by
        unfold tagMatchCount
        rw [List.filter_cons]
        simp [hb]
      rw [hcnt]

theorem applyTags_reverse_apply {tags : List String} {cats : List Category}
    (uid : Nat) (ty : String) (amt : Int) (hnd : catKeysNodup cats)
    (hall : ∀ t ∈ tags, isBlankTag t = false → presentCat cats uid t ty = true) :
    applyTags uid ty amt tags (applyTags uid ty (-amt) tags cats) = cats := by
  rw [applyTags_eq_map uid ty (-amt) hnd hall]
  have hkeys : (cats.map (bumpTags uid ty (-amt) tags)).map catKey = cats.map catKey := by
    rw [List.map_map]
    apply List.map_congr_left
    intro c _
    show catKey (bumpTags uid ty (-amt) tags c) = catKey c
    rw [bumpTags_balance]
    rfl
  have hnd' : catKeysNodup (cats.map (bumpTags uid ty (-amt) tags)) := by
    unfold catKeysNodup
    rw [hkeys]
    exact hnd
  have hall' : ∀ t ∈ tags, isBlankTag t = false →
      presentCat (cats.map (bumpTags uid ty (-amt) tags)) uid t ty = true := by
    intro t ht hb
    rw [presentCat_iff_mem_keys, hkeys, ← presentCat_iff_mem_keys]
    exact hall t ht hb
  rw [applyTags_eq_map uid ty amt hnd' hall', List.map_map]
  have hpt : ∀ c ∈ cats,
      (bumpTags uid ty amt tags ∘ bumpTags uid ty (-amt) tags) c = c := by
    intro c _
    show bumpTags uid ty amt tags (bumpTags uid ty (-amt) tags c) = c
    rw [bumpTags_balance, bumpTags_balance]
    show ({ c with balance :=
      (c.balance + -amt * (tagMatchCount uid ty tags c : Int)) +
        amt * (tagMatchCount uid ty tags c : Int) } : Category) = c
    have hz : (c.balance + -amt * (tagMatchCount uid ty tags c : Int)) +
        amt * (tagMatchCount uid ty tags c : Int) = c.balance := by
      ring
    rw [hz]
  rw [List.map_congr_left hpt]
  exact cats.map_id

theorem replaceTxn_self {txs : List Txn} {i : Nat} {orig : Txn}
    (h : txs.find? (fun t => t.id == i) = some orig) :
    replaceTxn txs i orig = txs := by
  induction txs with
  | nil => rfl
  | cons t rest ih =>
    rcases ht : (t.id == i) with _ | _
    · simp only [List.find?_cons, ht] at h
      simp only [replaceTxn, ht, Bool.false_eq_true, if_false]
      rw [ih h]
    · simp only [List.find?_cons, ht] at h
      cases h
      simp [replaceTxn, ht]

theorem setAccountBalance_self {l : List Account} {id : Nat} {account : Account}
    (h : l.find? (fun a => a.id == id) = some account) :
    setAccountBalance l id account.balance = l := by
  induction l with
  | nil => rfl
  | cons a rest ih =>
    rcases ha : (a.id == id) with _ | _
    · simp only [List.find?_cons, ha] at h
      simp only [setAccountBalance, ha, Bool.false_eq_true, if_false]
      rw [ih h]
    · simp only [List.find?_cons, ha] at h
      cases h
      simp [setAccountBalance, ha]

/-! ## Lemmas: per-key transaction sums -/

theorem catSum_cons (t : Txn) (txs : List Txn) (uid : Nat) (name ty : String) :
    catSum (t :: txs) uid name ty = txContrib t uid name ty + catSum txs uid name ty := by
  simp [catSum]

theorem catSum_append_single (txs : List Txn) (tx : Txn) (uid : Nat) (name ty : String) :
    catSum (txs ++ [tx]) uid name ty = catSum txs uid name ty + txContrib tx uid name ty := by
  simp [catSum]

theorem catSum_replaceTxn {txs : List Txn} {i : Nat} {orig : Txn} (u : Txn)
    (uid : Nat) (name ty : String)
    (h : txs.find? (fun t => t.id == i) = some orig) :
    catSum (replaceTxn txs i u) uid name ty =
      catSum txs uid name ty - txContrib orig uid name ty + txContrib u uid name ty := by
  induction txs with
  | nil => simp at h
  | cons t rest ih =>
    rcases ht : (t.id == i) with _ | _
    · simp only [List.find?_cons, ht] at h
      simp only [replaceTxn, ht, Bool.false_eq_true, if_false]
      rw [catSum_cons, catSum_cons, ih h]
      ring
    · simp only [List.find?_cons, ht] at h
      cases h
      simp only [replaceTxn, ht, if_true]
      rw [catSum_cons, catSum_cons]
      ring

theorem catSum_eraseTxn {txs : List Txn} {i : Nat} {tx : Txn}
    (uid : Nat) (name ty : String)
    (h : txs.find? (fun t => t.id == i) = some tx) :
    catSum (eraseTxn txs i) uid name ty =
      catSum txs uid name ty - txContrib tx uid name ty := by
  induction txs with
  | nil => simp at h
  | cons t rest ih =>
    rcases ht : (t.id == i) with _ | _
    · simp only [List.find?_cons, ht] at h
      simp only [eraseTxn, ht, Bool.false_eq_true, if_false]
      rw [catSum_cons, catSum_cons, ih h]
      ring
    · simp only [List.find?_cons, ht] at h
      cases h
      simp only [eraseTxn, ht, if_true]
      rw [catSum_cons]
      ring

theorem mem_replaceTxn {txs : List Txn} {i : Nat} {u x : Txn}
    (hx : x ∈ replaceTxn txs i u) : x ∈ txs ∨ x = u := by
  induction txs with
  | nil => simp [replaceTxn] at hx
  | cons t rest ih =>
    rcases ht : (t.id == i) with _ | _
    · simp only [replaceTxn, ht, Bool.false_eq_true, if_false, List.mem_cons] at hx
      rcases hx with rfl | hx
      · exact Or.inl (List.mem_cons_self x rest)
      · rcases ih hx with hin | rfl
        · exact Or.inl (List.mem_cons_of_mem t hin)
        · exact Or.inr rfl
    · simp only [replaceTxn, ht, if_true, List.mem_cons] at hx
      rcases hx with rfl | hx
      · exact Or.inr rfl
      · exact Or.inl (List.mem_cons_of_mem t hx)

theorem mem_eraseTxn {txs : List Txn} {i : Nat} {x : Txn}
    (hx : x ∈ eraseTxn txs i) : x ∈ txs := by
  induction txs with
  | nil => simp [eraseTxn] at hx
  | cons t rest ih =>
    rcases ht : (t.id == i) with _ | _
    · simp only [eraseTxn, ht, Bool.false_eq_true, if_false, List.mem_cons] at hx
      rcases hx with rfl | hx
      · exact List.mem_cons_self x rest
      · exact List.mem_cons_of_mem t (ih hx)
    · simp only [eraseTxn, ht, if_true] at hx
      exact List.mem_cons_of_mem t hx

theorem lookupBal_of_mem_nodup {cats : List Category} (hnd : catKeysNodup cats)
    {c : Category} (hc : c ∈ cats) :
    lookupBal cats c.user_id c.name c.type = some c.balance := by
  induction cats with
  | nil => cases hc
  | cons c0 rest ih =>
    unfold catKeysNodup at hnd
    rw [List.map_cons, List.nodup_cons] at hnd
    rcases List.mem_cons.mp hc with rfl | hcr
    · have hm : catMatches c c.user_id c.name c.type = true := by
        unfold catMatches
        simp
      simp only [lookupBal, List.find?_cons, hm]
      rfl
    · have hm : catMatches c0 c.user_id c.name c.type = false := by
        rcases hx : catMatches c0 c.user_id c.name c.type with _ | _
        · rfl
        · obtain ⟨h1, h2, h3⟩ := (catMatches_iff c0 c.user_id c.name c.type).mp hx
          have : catKey c0 ∈ rest.map catKey := by
            refine List.mem_map.mpr ⟨c, hcr, ?_⟩
            simp [catKey, h1, h2, h3]
          exact absurd this hnd.1
      simp only [lookupBal, List.find?_cons, hm]
      exact ih hnd.2 hcr

theorem lookupBal_matches_catSum {db : DB} (hcm : catsMatch db)
    {uid : Nat} {name ty : String} {b : Int}
    (h : lookupBal db.categories uid name ty = some b) :
    b = catSum db.transactions uid name ty := by
  unfold lookupBal at h
  rcases hx : db.categories.find? (fun c => catMatches c uid name ty) with _ | c
  · rw [hx] at h
    cases h
  · rw [hx] at h
    obtain ⟨hm, hp⟩ := find?_mem_pos hx
    obtain ⟨h1, h2, h3⟩ := (catMatches_iff c uid name ty).mp hp
    have hcb := hcm c hm
    have hb2 : c.balance = b := by simpa using h
    rw [← hb2, hcb, h1, h2, h3]

theorem txContrib_pos {tx : Txn} {uid : Nat} {name ty : String}
    (h1 : uid = tx.id_akun) (h2 : ty = tx.tipe) (h3 : name ∈ tx.tags) :
    txContrib tx uid name ty = tx.nominal := by
  unfold txContrib
  have hmem : tx.tags.contains name = true := List.elem_iff.mpr h3
  have hcnd : (tx.id_akun == uid && tx.tipe == ty && tx.tags.contains name) = true := by
    simp [h1, h2, hmem, h3]
  rw [hcnd]
  simp

theorem txContrib_zero {tx : Txn} {uid : Nat} {name ty : String}
    (hb : isBlankTag name = false)
    (h : ¬(uid = tx.id_akun ∧ ty = tx.tipe ∧ name ∈ tx.tags ∧ isBlankTag name = false)) :
    txContrib tx uid name ty = 0 := by
  unfold txContrib
  rcases hx : (tx.id_akun == uid && tx.tipe == ty && tx.tags.contains name) with _ | _
  · simp
  · simp only [Bool.and_eq_true, beq_iff_eq] at hx
    exact absurd ⟨hx.1.1.symm, hx.1.2.symm, List.elem_iff.mp hx.2, hb⟩ h

theorem catSum_zero_of_absent {txs : List Txn} {cats : List Category}
    {uid : Nat} {name ty : String}
    (hcomp : catsComplete txs cats)
    (habs : presentCat cats uid name ty = false)
    (hb : isBlankTag name = false) :
    catSum txs uid name ty = 0 := by
  unfold catSum
  apply List.sum_eq_zero
  intro x hx
  obtain ⟨t, ht, rfl⟩ := List.mem_map.mp hx
  rcases hc : (t.id_akun == uid && t.tipe == ty && t.tags.contains name) with _ | _
  · unfold txContrib
    rw [hc]
    rfl
  · simp only [Bool.and_eq_true, beq_iff_eq] at hc
    obtain ⟨c, hcm, hcmatch⟩ := hcomp t ht name (List.elem_iff.mp hc.2) hb
    have : presentCat cats uid name ty = true := by
      rw [presentCat_iff_mem_keys]
      obtain ⟨h1, h2, h3⟩ := (catMatches_iff c t.id_akun name t.tipe).mp hcmatch
      refine List.mem_map.mpr ⟨c, hcm, ?_⟩
      simp [catKey, h1, h2, h3, hc.1.1, hc.1.2]
    rw [this] at habs
    cases habs

/-! ## Lemmas: category totals preservation -/

theorem presentCat_iff_exists (cats : List Category) (uid : Nat) (name ty : String) :
    presentCat cats uid name ty = true ↔
      ∃ c ∈ cats, catMatches c uid name ty = true := by
  simp [presentCat, List.find?_isSome]

theorem c2Inv_createTxn (req : CreateTxnReq) {db : DB}
    (hop : (req.tags.getD []).Nodup) (h : c2Inv db) :
    c2Inv (applyOp (.createTxn req) db) := by
  obtain ⟨⟨hknd, hnames, htags, hcomp⟩, hcm⟩ := h
  by_cases hval : txnValid (reqTxn req db.nextId) = true
  · rcases hacct : findAccount db req.id_akun with _ | account
    · simp only [applyOp, createTransaction, hval, hacct, Bool.not_true,
        Bool.false_eq_true, if_false, Except.map, commit]
      exact ⟨⟨hknd, hnames, htags, hcomp⟩, hcm⟩
    · simp only [applyOp, createTransaction, hval, hacct, Bool.not_true,
        Bool.false_eq_true, if_false, Except.map, commit]
      have htagnd : (reqTxn req db.nextId).tags.Nodup := hop
      have hcats : updateCategoryBalances (reqTxn req db.nextId) false db.categories =
          applyTags (reqTxn req db.nextId).id_akun (reqTxn req db.nextId).tipe
            (reqTxn req db.nextId).nominal (reqTxn req db.nextId).tags db.categories := rfl
      have hnd' : catKeysNodup
          (updateCategoryBalances (reqTxn req db.nextId) false db.categories) := by
        rw [hcats]
        exact catKeysNodup_applyTags _ _ _ hknd
      have hgood' : catNamesGood
          (updateCategoryBalances (reqTxn req db.nextId) false db.categories) := by
        rw [hcats]
        exact catNamesGood_applyTags _ _ _ hnames
      refine ⟨⟨hnd', hgood', ?_, ?_⟩, ?_⟩
      · intro t ht
        rcases List.mem_append.mp ht with hin | hnew
        · exact htags t hin
        · rw [List.mem_singleton.mp hnew]
          exact hop
      · intro t ht tag htag hbl
        show ∃ c ∈ updateCategoryBalances (reqTxn req db.nextId) false db.categories,
          catMatches c t.id_akun tag t.tipe = true
        rw [← presentCat_iff_exists, hcats]
        rcases List.mem_append.mp ht with hin | hnew
        · refine presentCat_mono_applyTags _ _ _ ?_
          rw [presentCat_iff_exists]
          exact hcomp t hin tag htag hbl
        · rw [List.mem_singleton] at hnew
          subst hnew
          exact presentCat_applyTags_of_tag htagnd _ _ _ _ htag hbl
      · intro c' hc'
        have hbname : isBlankTag c'.name = false := hgood' c' hc'
        have hlk := lookupBal_of_mem_nodup hnd' hc'
        rw [hcats, lookupBal_applyTags htagnd] at hlk
        show c'.balance =
          catSum (db.transactions ++ [reqTxn req db.nextId]) c'.user_id c'.name c'.type
        rw [catSum_append_single]
        by_cases hcond : c'.user_id = (reqTxn req db.nextId).id_akun ∧
            c'.type = (reqTxn req db.nextId).tipe ∧
            c'.name ∈ (reqTxn req db.nextId).tags ∧ isBlankTag c'.name = false
        · rw [if_pos hcond] at hlk
          rw [txContrib_pos hcond.1 hcond.2.1 hcond.2.2.1]
          rcases hl0 : lookupBal db.categories c'.user_id c'.name c'.type with _ | b
          · rw [hl0] at hlk
            have habs : presentCat db.categories c'.user_id c'.name c'.type = false := by
              rw [presentCat_eq_lookup_isSome, hl0]
              rfl
            rw [catSum_zero_of_absent hcomp habs hbname]
            have hinj := Option.some.inj hlk
            simp only [Option.getD_none] at hinj
            omega
          · rw [hl0] at hlk
            have hb := lookupBal_matches_catSum hcm hl0
            have hinj := Option.some.inj hlk
            simp only [Option.getD_some] at hinj
            omega
        · rw [if_neg hcond] at hlk
          rw [txContrib_zero hbname hcond]
          have := lookupBal_matches_catSum hcm hlk
          omega
  · have hval' : (!txnValid (reqTxn req db.nextId)) = true := by
      simp [hval]
    simp only [applyOp, createTransaction, hval', if_true, Except.map, commit]
    exact ⟨⟨hknd, hnames, htags, hcomp⟩, hcm⟩

theorem presentCat_of_txn_tag {txs : List Txn} {cats : List Category}
    (hcomp : catsComplete txs cats) {t : Txn} (ht : t ∈ txs)
    {uid : Nat} {name ty : String}
    (h1 : uid = t.id_akun) (h2 : ty = t.tipe) (h3 : name ∈ t.tags)
    (hb : isBlankTag name = false) :
    presentCat cats uid name ty = true := by
  rw [presentCat_iff_exists]
  obtain ⟨c0, hc0, hm0⟩ := hcomp t ht name h3 hb
  refine ⟨c0, hc0, ?_⟩
  rw [h1, h2]
  exact hm0

theorem c2Inv_updateTxn (txId : Nat) (body : UpdateTxnBody) {db : DB}
    (hop : ∀ l, body.tags = some l → l.Nodup) (h : c2Inv db) :
    c2Inv (applyOp (.updateTxn txId body) db) := by
  obtain ⟨⟨hknd, hnames, htags, hcomp⟩, hcm⟩ := h
  rcases hfind : findTxn db txId with _ | orig
  · simp only [applyOp, updateTransaction, hfind, Except.map, commit]
    exact ⟨⟨hknd, hnames, htags, hcomp⟩, hcm⟩
  · rcases hacct : findAccount db orig.id_akun with _ | account
    · simp only [applyOp, updateTransaction, hfind, hacct, Except.map, commit]
      exact ⟨⟨hknd, hnames, htags, hcomp⟩, hcm⟩
    · simp only [applyOp, updateTransaction, hfind, hacct, Except.map, commit]
      have hfind' : db.transactions.find? (fun t => t.id == txId) = some orig := hfind
      have horig_mem : orig ∈ db.transactions := (find?_mem_pos hfind').1
      have horigtags : orig.tags.Nodup := htags orig horig_mem
      have hmtags : (mergedTxn body orig).tags.Nodup := by
        rcases hbt : body.tags with _ | l
        · simpa [mergedTxn, hbt] using horigtags
        · simpa [mergedTxn, hbt] using hop l hbt
      have hfwd : updateCategoryBalances (mergedTxn body orig) false
            (updateCategoryBalances orig true db.categories) =
          applyTags (mergedTxn body orig).id_akun (mergedTxn body orig).tipe
            (mergedTxn body orig).nominal (mergedTxn body orig).tags
            (applyTags orig.id_akun orig.tipe (-orig.nominal) orig.tags db.categories) :=
        rfl
      have hnd1 : catKeysNodup (applyTags orig.id_akun orig.tipe (-orig.nominal)
          orig.tags db.categories) := catKeysNodup_applyTags _ _ _ hknd
      have hgood1 : catNamesGood (applyTags orig.id_akun orig.tipe (-orig.nominal)
          orig.tags db.categories) := catNamesGood_applyTags _ _ _ hnames
      have hnd2 : catKeysNodup (applyTags (mergedTxn body orig).id_akun
          (mergedTxn body orig).tipe (mergedTxn body orig).nominal
          (mergedTxn body orig).tags
          (applyTags orig.id_akun orig.tipe (-orig.nominal) orig.tags db.categories)) :=
        catKeysNodup_applyTags _ _ _ hnd1
      have hgood2 : catNamesGood (applyTags (mergedTxn body orig).id_akun
          (mergedTxn body orig).tipe (mergedTxn body orig).nominal
          (mergedTxn body orig).tags
          (applyTags orig.id_akun orig.tipe (-orig.nominal) orig.tags db.categories)) :=
        catNamesGood_applyTags _ _ _ hgood1
      refine ⟨⟨?_, ?_, ?_, ?_⟩, ?_⟩
      · show catKeysNodup (updateCategoryBalances (mergedTxn body orig) false
          (updateCategoryBalances orig true db.categories))
        rw [hfwd]
        exact hnd2
      · show catNamesGood (updateCategoryBalances (mergedTxn body orig) false
          (updateCategoryBalances orig true db.categories))
        rw [hfwd]
        exact hgood2
      · intro t ht
        rcases mem_replaceTxn ht with hin | rfl
        · exact htags t hin
        · exact hmtags
      · intro t ht tag htag hbl
        show ∃ c ∈ updateCategoryBalances (mergedTxn body orig) false
            (updateCategoryBalances orig true db.categories),
          catMatches c t.id_akun tag t.tipe = true
        rw [← presentCat_iff_exists, hfwd]
        rcases mem_replaceTxn ht with hin | rfl
        · refine presentCat_mono_applyTags _ _ _ ?_
          refine presentCat_mono_applyTags _ _ _ ?_
          rw [presentCat_iff_exists]
          exact hcomp t hin tag htag hbl
        · exact presentCat_applyTags_of_tag hmtags _ _ _ _ htag hbl
      · intro c' hc'
        have hc2 : c' ∈ applyTags (mergedTxn body orig).id_akun
            (mergedTxn body orig).tipe (mergedTxn body orig).nominal
            (mergedTxn body orig).tags
            (applyTags orig.id_akun orig.tipe (-orig.nominal) orig.tags db.categories) :=
          hc'
        have hbname : isBlankTag c'.name = false := hgood2 c' hc2
        have hlk := lookupBal_of_mem_nodup hnd2 hc2
        rw [lookupBal_applyTags hmtags, lookupBal_applyTags horigtags] at hlk
        show c'.balance = catSum (replaceTxn db.transactions txId (mergedTxn body orig))
          c'.user_id c'.name c'.type
        rw [catSum_replaceTxn (mergedTxn body orig) _ _ _ hfind']
        by_cases hcM : c'.user_id = (mergedTxn body orig).id_akun ∧
            c'.type = (mergedTxn body orig).tipe ∧
            c'.name ∈ (mergedTxn body orig).tags ∧ isBlankTag c'.name = false
        · rw [if_pos hcM] at hlk
          rw [txContrib_pos hcM.1 hcM.2.1 hcM.2.2.1]
          by_cases hcO : c'.user_id = orig.id_akun ∧ c'.type = orig.tipe ∧
              c'.name ∈ orig.tags ∧ isBlankTag c'.name = false
          · rw [if_pos hcO] at hlk
            rw [txContrib_pos hcO.1 hcO.2.1 hcO.2.2.1]
            rcases hl0 : lookupBal db.categories c'.user_id c'.name c'.type with _ | b
            · exfalso
              have hpres := presentCat_of_txn_tag hcomp horig_mem hcO.1 hcO.2.1
                hcO.2.2.1 hbname
              rw [presentCat_eq_lookup_isSome, hl0] at hpres
              simp at hpres
            · rw [hl0] at hlk
              have hb := lookupBal_matches_catSum hcm hl0
              have hinj := Option.some.inj hlk
              simp only [Option.getD_some] at hinj
              omega
          · rw [if_neg hcO] at hlk
            rw [txContrib_zero hbname hcO]
            rcases hl0 : lookupBal db.categories c'.user_id c'.name c'.type with _ | b
            · rw [hl0] at hlk
              have habs : presentCat db.categories c'.user_id c'.name c'.type = false := by
                rw [presentCat_eq_lookup_isSome, hl0]
                rfl
              rw [catSum_zero_of_absent hcomp habs hbname]
              have hinj := Option.some.inj hlk
              simp only [Option.getD_none] at hinj
              omega
            · rw [hl0] at hlk
              have hb := lookupBal_matches_catSum hcm hl0
              have hinj := Option.some.inj hlk
              simp only [Option.getD_some] at hinj
              omega
        · rw [if_neg hcM] at hlk
          rw [txContrib_zero hbname hcM]
          by_cases hcO : c'.user_id = orig.id_akun ∧ c'.type = orig.tipe ∧
              c'.name ∈ orig.tags ∧ isBlankTag c'.name = false
          · rw [if_pos hcO] at hlk
            rw [txContrib_pos hcO.1 hcO.2.1 hcO.2.2.1]
            rcases hl0 : lookupBal db.categories c'.user_id c'.name c'.type with _ | b
            · exfalso
              have hpres := presentCat_of_txn_tag hcomp horig_mem hcO.1 hcO.2.1
                hcO.2.2.1 hbname
              rw [presentCat_eq_lookup_isSome, hl0] at hpres
              simp at hpres
            · rw [hl0] at hlk
              have hb := lookupBal_matches_catSum hcm hl0
              have hinj := Option.some.inj hlk
              simp only [Option.getD_some] at hinj
              omega
          · rw [if_neg hcO] at hlk
            rw [txContrib_zero hbname hcO]
            have hb := lookupBal_matches_catSum hcm hlk
            omega

theorem c2Inv_deleteTxn (txId : Nat) {db : DB} (h : c2Inv db) :
    c2Inv (applyOp (.deleteTxn txId) db) := by
  obtain ⟨⟨hknd, hnames, htags, hcomp⟩, hcm⟩ := h
  rcases hfind : findTxn db txId with _ | tx
  · simp only [applyOp, deleteTransaction, hfind, commit]
    exact ⟨⟨hknd, hnames, htags, hcomp⟩, hcm⟩
  · rcases hacct : findAccount db tx.id_akun with _ | account
    · simp only [applyOp, deleteTransaction, hfind, hacct, commit]
      exact ⟨⟨hknd, hnames, htags, hcomp⟩, hcm⟩
    · simp only [applyOp, deleteTransaction, hfind, hacct, commit]
      have hfind' : db.transactions.find? (fun t => t.id == txId) = some tx := hfind
      have htx_mem : tx ∈ db.transactions := (find?_mem_pos hfind').1
      have htxtags : tx.tags.Nodup := htags tx htx_mem
      have hrev : updateCategoryBalances tx true db.categories =
          applyTags tx.id_akun tx.tipe (-tx.nominal) tx.tags db.categories := rfl
      have hnd1 : catKeysNodup (applyTags tx.id_akun tx.tipe (-tx.nominal)
          tx.tags db.categories) := catKeysNodup_applyTags _ _ _ hknd
      have hgood1 : catNamesGood (applyTags tx.id_akun tx.tipe (-tx.nominal)
          tx.tags db.categories) := catNamesGood_applyTags _ _ _ hnames
      refine ⟨⟨?_, ?_, ?_, ?_⟩, ?_⟩
      · show catKeysNodup (updateCategoryBalances tx true db.categories)
        rw [hrev]
        exact hnd1
      · show catNamesGood (updateCategoryBalances tx true db.categories)
        rw [hrev]
        exact hgood1
      · intro t ht
        exact htags t (mem_eraseTxn ht)
      · intro t ht tag htag hbl
        show ∃ c ∈ updateCategoryBalances tx true db.categories,
          catMatches c t.id_akun tag t.tipe = true
        rw [← presentCat_iff_exists, hrev]
        refine presentCat_mono_applyTags _ _ _ ?_
        rw [presentCat_iff_exists]
        exact hcomp t (mem_eraseTxn ht) tag htag hbl
      · intro c' hc'
        have hc1 : c' ∈ applyTags tx.id_akun tx.tipe (-tx.nominal) tx.tags db.categories :=
          hc'
        have hbname : isBlankTag c'.name = false := hgood1 c' hc1
        have hlk := lookupBal_of_mem_nodup hnd1 hc1
        rw [lookupBal_applyTags htxtags] at hlk
        show c'.balance = catSum (eraseTxn db.transactions txId)
          c'.user_id c'.name c'.type
        rw [catSum_eraseTxn _ _ _ hfind']
        by_cases hcO : c'.user_id = tx.id_akun ∧ c'.type = tx.tipe ∧
            c'.name ∈ tx.tags ∧ isBlankTag c'.name = false
        · rw [if_pos hcO] at hlk
          rw [txContrib_pos hcO.1 hcO.2.1 hcO.2.2.1]
          rcases hl0 : lookupBal db.categories c'.user_id c'.name c'.type with _ | b
          · exfalso
            have hpres := presentCat_of_txn_tag hcomp htx_mem hcO.1 hcO.2.1
              hcO.2.2.1 hbname
            rw [presentCat_eq_lookup_isSome, hl0] at hpres
            simp at hpres
          · rw [hl0] at hlk
            have hb := lookupBal_matches_catSum hcm hl0
            have hinj := Option.some.inj hlk
            simp only [Option.getD_some] at hinj
            omega
        · rw [if_neg hcO] at hlk
          rw [txContrib_zero hbname hcO]
          have hb := lookupBal_matches_catSum hcm hlk
          omega

theorem c2Inv_applyOp {db : DB} {op : Op} (hop : keepsCatTotals op) (h : c2Inv db) :
    c2Inv (applyOp op db) := by
  cases op with
  | createTxn req => exact c2Inv_createTxn req hop h
  | updateTxn txId body => exact c2Inv_updateTxn txId body hop h
  | deleteTxn txId => exact c2Inv_deleteTxn txId h
  | createGoal uid req => exact hop.elim
  | updateGoal gid body => exact hop.elim
  | allocate gid req => exact hop.elim
  | withdraw gid req => exact hop.elim
  | rebuildCategories uid => exact hop.elim

theorem c2Inv_runOps {db : DB} {ops : List Op}
    (hops : ∀ op ∈ ops, keepsCatTotals op) (h : c2Inv db) :
    c2Inv (runOps ops db) := by
  induction ops generalizing db with
  | nil => exact h
  | cons op rest ih =>
    exact ih (fun o ho => hops o (List.mem_cons_of_mem op ho))
      (c2Inv_applyOp (hops op (List.mem_cons_self op rest)) h)

/-! ## Lemmas: category rebuild -/

theorem foldl_preserve {α β : Type} (P : β → Prop) (f : β → α → β)
    (hf : ∀ b a, P b → P (f b a)) :
    ∀ (l : List α) (b : β), P b → P (l.foldl f b) := by
  intro l
  induction l with
  | nil => intro b hb; exact hb
  | cons a rest ih => intro b hb; exact ih (f b a) (hf b a hb)

theorem tdKeys_upsert (acc : List (String × String × Int)) (name ty : String) (n : Int) :
    (upsertTagData acc name ty n).map tdKey =
      if (name, ty) ∈ acc.map tdKey then acc.map tdKey
      else acc.map tdKey ++ [(name, ty)] := by
  induction acc with
  | nil => simp [upsertTagData, tdKey]
  | cons e rest ih =>
    obtain ⟨nm, t, b⟩ := e
    rcases hk : (nm == name && t == ty) with _ | _
    · have hk' : ¬(nm = name ∧ t = ty) := by
        rintro ⟨h1, h2⟩
        rw [h1, h2] at hk
        simp at hk
      have hne : ((name, ty) : String × String) ≠ (nm, t) := by
        intro he
        rw [Prod.mk.injEq] at he
        exact hk' ⟨he.1.symm, he.2.symm⟩
      have hhead : tdKey (nm, t, b) = (nm, t) := rfl
      have hcons : (((name, ty) : String × String) ∈ ((nm, t, b) :: rest).map tdKey) ↔
          ((name, ty) ∈ rest.map tdKey) := by
        rw [List.map_cons, hhead, List.mem_cons]
        constructor
        · rintro (he | hm)
          · exact absurd he hne
          · exact hm
        · exact Or.inr
      simp only [upsertTagData, hk, Bool.false_eq_true, if_false]
      by_cases hm : ((name, ty) : String × String) ∈ rest.map tdKey
      · rw [if_pos (hcons.mpr hm)]
        simp only [List.map_cons]
        rw [ih, if_pos hm]
      · rw [if_neg (fun hx => hm (hcons.mp hx))]
        simp only [List.map_cons]
        rw [ih, if_neg hm]
        rfl
    · simp only [Bool.and_eq_true, beq_iff_eq] at hk
      simp only [upsertTagData, hk.1, hk.2, beq_self_eq_true, Bool.and_self, if_true]
      rw [if_pos]
      · rfl
      · rw [List.map_cons]
        exact List.mem_cons_self _ _

theorem tdKeysNodup_upsert (acc : List (String × String × Int)) (name ty : String)
    (n : Int) (hnd : (acc.map tdKey).Nodup) :
    ((upsertTagData acc name ty n).map tdKey).Nodup := by
  rw [tdKeys_upsert]
  by_cases hm : ((name, ty) : String × String) ∈ acc.map tdKey
  · rw [if_pos hm]
    exact hnd
  · rw [if_neg hm]
    rw [List.nodup_append]
    refine ⟨hnd, by simp, ?_⟩
    intro x hx hy
    simp only [List.mem_singleton] at hy
    subst hy
    exact hm hx

theorem tagDataOf_keys_nodup (txs : List Txn) : ((tagDataOf txs).map tdKey).Nodup := by
  unfold tagDataOf
  refine foldl_preserve (fun acc => (acc.map tdKey).Nodup) _ ?_ txs [] (by simp)
  intro acc tx hacc
  refine foldl_preserve (fun acc => (acc.map tdKey).Nodup) _ ?_ tx.tags acc hacc
  intro acc2 tagName hacc2
  rcases hb : isBlankTag tagName with _ | _
  · simp only [Bool.false_eq_true, if_false]
    exact tdKeysNodup_upsert _ _ _ _ hacc2
  · simp only [if_true]
    exact hacc2

theorem keys_setCatBalance (cats : List Category) (uid : Nat) (name ty : String)
    (b : Int) :
    (setCatBalance cats uid name ty b).map catKey = cats.map catKey := by
  induction cats with
  | nil => rfl
  | cons c rest ih =>
    rcases hc : catMatches c uid name ty with _ | _
    · simp only [setCatBalance, hc, Bool.false_eq_true, if_false, List.map_cons, ih]
    · simp only [setCatBalance, hc, if_true, List.map_cons]
      rfl

theorem setCatBalance_noop {cats : List Category} {uid : Nat} {name ty : String} {b : Int}
    (h : lookupBal cats uid name ty = some b) :
    setCatBalance cats uid name ty b = cats := by
  induction cats with
  | nil => rfl
  | cons c rest ih =>
    rcases hc : catMatches c uid name ty with _ | _
    · simp only [lookupBal, List.find?_cons, hc] at h
      simp only [setCatBalance, hc, Bool.false_eq_true, if_false]
      rw [ih (by simpa [lookupBal] using h)]
    · simp only [lookupBal, List.find?_cons, hc] at h
      have hb2 : c.balance = b := by simpa using h
      simp only [setCatBalance, hc, if_true]
      rw [← hb2]

theorem lookupBal_setCatBalance_self {cats : List Category} {uid : Nat}
    {name ty : String} (b : Int) (h : presentCat cats uid name ty = true) :
    lookupBal (setCatBalance cats uid name ty b) uid name ty = some b := by
  induction cats with
  | nil => simp [presentCat] at h
  | cons c rest ih =>
    simp only [presentCat, List.find?_cons] at h
    rcases hc : catMatches c uid name ty with _ | _
    · rw [hc] at h
      simp only [setCatBalance, hc, Bool.false_eq_true, if_false, lookupBal,
        List.find?_cons, hc]
      exact ih h
    · have hc' : catMatches { c with balance := b } uid name ty = true := hc
      simp only [setCatBalance, hc, if_true, lookupBal, List.find?_cons, hc']
      rfl

theorem lookupBal_setCatBalance_ne (cats : List Category) {uid : Nat}
    {name ty : String} (b : Int) {uid' : Nat} {name' ty' : String}
    (h : ¬(uid' = uid ∧ name' = name ∧ ty' = ty)) :
    lookupBal (setCatBalance cats uid name ty b) uid' name' ty' =
      lookupBal cats uid' name' ty' := by
  induction cats with
  | nil => rfl
  | cons c rest ih =>
    rcases hc : catMatches c uid name ty with _ | _
    · simp only [setCatBalance, hc, Bool.false_eq_true, if_false, lookupBal,
        List.find?_cons]
      rcases hk : catMatches c uid' name' ty' with _ | _
      · simpa [lookupBal] using ih
      · rfl
    · have hcne : catMatches c uid' name' ty' = false := by
        rcases hx : catMatches c uid' name' ty' with _ | _
        · rfl
        · obtain ⟨h1, h2, h3⟩ := (catMatches_iff _ uid' name' ty').mp hx
          obtain ⟨g1, g2, g3⟩ := (catMatches_iff _ uid name ty).mp hc
          exact absurd ⟨h1 ▸ g1, h2 ▸ g2, h3 ▸ g3⟩ h
      have hcne' : catMatches { c with balance := b } uid' name' ty' = false := hcne
      simp only [setCatBalance, hc, if_true, lookupBal, List.find?_cons, hcne, hcne']

theorem lookupBal_append_single_ne {cats : List Category} {c' : Category}
    {uid : Nat} {name ty : String} (h : catMatches c' uid name ty = false) :
    lookupBal (cats ++ [c']) uid name ty = lookupBal cats uid name ty := by
  unfold lookupBal
  rw [List.find?_append]
  rcases hx : cats.find? (fun c => catMatches c uid name ty) with _ | c0
  · simp [List.find?_cons, h]
  · simp

theorem lookupBal_append_single_self {cats : List Category} {uid : Nat}
    {name ty : String} (b : Int) (habs : presentCat cats uid name ty = false) :
    lookupBal (cats ++ [⟨uid, name, ty, b⟩]) uid name ty = some b := by
  unfold lookupBal
  rw [List.find?_append]
  have hnone : cats.find? (fun c => catMatches c uid name ty) = none := by
    unfold presentCat at habs
    rcases hx : cats.find? (fun c => catMatches c uid name ty) with _ | c0
    · rfl
    · rw [hx] at habs
      cases habs
  rw [hnone]
  have hm : catMatches ⟨uid, name, ty, b⟩ uid name ty = true := by
    unfold catMatches
    simp
  simp [List.find?_cons, hm]

theorem lookupBal_genWriteStep_ne {snap cats : List Category} {uid : Nat}
    {e : String × String × Int} {uid' : Nat} {name' ty' : String}
    (h : ¬(uid' = uid ∧ name' = e.1 ∧ ty' = e.2.1)) :
    lookupBal (genWriteStep snap uid cats e) uid' name' ty' =
      lookupBal cats uid' name' ty' := by
  unfold genWriteStep
  rcases hp : (snap.find? (fun c => catMatches c uid e.1 e.2.1)).isSome with _ | _
  · simp only [Bool.false_eq_true, if_false]
    refine lookupBal_append_single_ne ?_
    rcases hx : catMatches ⟨uid, e.1, e.2.1, e.2.2⟩ uid' name' ty' with _ | _
    · rfl
    · obtain ⟨h1, h2, h3⟩ := (catMatches_iff _ uid' name' ty').mp hx
      exact absurd ⟨h1.symm, h2.symm, h3.symm⟩ h
  · simp only [if_true]
    exact lookupBal_setCatBalance_ne _ _ h

theorem lookupBal_gen_foldl_ne {data : List (String × String × Int)}
    {snap : List Category} {uid : Nat} {uid' : Nat} {name' ty' : String}
    (h : ∀ e ∈ data, ¬(uid' = uid ∧ name' = e.1 ∧ ty' = e.2.1)) :
    ∀ cats, lookupBal (data.foldl (genWriteStep snap uid) cats) uid' name' ty' =
      lookupBal cats uid' name' ty' := by
  induction data with
  | nil =>
    intro cats
    rfl
  | cons e rest ih =>
    intro cats
    rw [List.foldl_cons, ih (fun e' he' => h e' (List.mem_cons_of_mem e he')),
      lookupBal_genWriteStep_ne (h e (List.mem_cons_self e rest))]

theorem gen_lookup_value {data : List (String × String × Int)}
    {snap : List Category} {uid : Nat}
    (hnd : (data.map tdKey).Nodup) :
    ∀ {cats : List Category},
      (∀ e ∈ data, presentCat snap uid e.1 e.2.1 = presentCat cats uid e.1 e.2.1) →
      ∀ e ∈ data, lookupBal (data.foldl (genWriteStep snap uid) cats) uid e.1 e.2.1 =
        some e.2.2 := by
  induction data with
  | nil =>
    intro cats _ e he
    cases he
  | cons e0 rest ih =>
    rw [List.map_cons, List.nodup_cons] at hnd
    intro cats hagree e he
    rw [List.foldl_cons]
    rcases List.mem_cons.mp he with rfl | hin
    · have hstep : lookupBal (genWriteStep snap uid cats e) uid e.1 e.2.1 =
          some e.2.2 := by
        unfold genWriteStep
        rcases hp : (snap.find? (fun c => catMatches c uid e.1 e.2.1)).isSome with _ | _
        · simp only [Bool.false_eq_true, if_false]
          refine lookupBal_append_single_self _ ?_
          have hag := hagree e (List.mem_cons_self e rest)
          rw [← hag]
          exact hp
        · simp only [if_true]
          refine lookupBal_setCatBalance_self _ ?_
          have hag := hagree e (List.mem_cons_self e rest)
          rw [← hag]
          exact hp
      rw [lookupBal_gen_foldl_ne ?_ _]
      · exact hstep
      · intro e' he'
        rintro ⟨_, h2, h3⟩
        apply hnd.1
        refine List.mem_map.mpr ⟨e', he', ?_⟩
        show (e'.1, e'.2.1) = tdKey e
        rw [← h2, ← h3]
        rfl
    · refine ih hnd.2 ?_ e hin
      intro e' he'
      have hne : ¬(uid = uid ∧ e'.1 = e0.1 ∧ e'.2.1 = e0.2.1) := by
        rintro ⟨_, h2, h3⟩
        apply hnd.1
        refine List.mem_map.mpr ⟨e', he', ?_⟩
        show (e'.1, e'.2.1) = tdKey e0
        rw [h2, h3]
        rfl
      rw [hagree e' (List.mem_cons_of_mem e0 he'), presentCat_eq_lookup_isSome,
        presentCat_eq_lookup_isSome, lookupBal_genWriteStep_ne hne]

theorem gen_fold_noop {data : List (String × String × Int)} {snap cats : List Category}
    {uid : Nat}
    (h : ∀ e ∈ data, presentCat snap uid e.1 e.2.1 = true ∧
      lookupBal cats uid e.1 e.2.1 = some e.2.2) :
    data.foldl (genWriteStep snap uid) cats = cats := by
  induction data with
  | nil => rfl
  | cons e rest ih =>
    rw [List.foldl_cons]
    have he := h e (List.mem_cons_self e rest)
    have hp : (snap.find? (fun c => catMatches c uid e.1 e.2.1)).isSome = true := he.1
    have hstep : genWriteStep snap uid cats e = cats := by
      unfold genWriteStep
      rw [hp]
      simp only [if_true]
      exact setCatBalance_noop he.2
    rw [hstep]
    exact ih (fun e' he' => h e' (List.mem_cons_of_mem e he'))

theorem gen_lookup_after {uid : Nat} (db : DB) :
    ∀ e ∈ tagDataOf (db.transactions.filter (fun t => t.id_akun == uid)),
      lookupBal (generateCategoriesFromTags uid db).categories uid e.1 e.2.1 =
        some e.2.2 := by
  have hnd := tagDataOf_keys_nodup (db.transactions.filter (fun t => t.id_akun == uid))
  exact gen_lookup_value hnd (fun e _ => rfl)

theorem generate_idem (uid : Nat) (db : DB) :
    generateCategoriesFromTags uid (generateCategoriesFromTags uid db) =
      generateCategoriesFromTags uid db := by
  have hval := @gen_lookup_after uid db
  have hcond : ∀ e ∈ tagDataOf (db.transactions.filter (fun t => t.id_akun == uid)),
      presentCat (generateCategoriesFromTags uid db).categories uid e.1 e.2.1 = true ∧
      lookupBal (generateCategoriesFromTags uid db).categories uid e.1 e.2.1 =
        some e.2.2 := by
    intro e he
    refine ⟨?_, hval e he⟩
    rw [presentCat_eq_lookup_isSome, hval e he]
    rfl
  show ({ generateCategoriesFromTags uid db with categories :=
      ((tagDataOf (db.transactions.filter (fun t => t.id_akun == uid))).foldl
        (genWriteStep (generateCategoriesFromTags uid db).categories uid)
        (generateCategoriesFromTags uid db).categories) } : DB) =
    generateCategoriesFromTags uid db
  rw [gen_fold_noop hcond]

/-! ## Lemmas: goal validation, save hook, non-negativity -/

theorem goalValid_parts {g : Goal} (h : goalValid g = true) :
    g.title ≠ "" ∧ 0 ≤ g.target_amount ∧ 0 ≤ g.saved_amount ∧
      validStatus g.status = true := by
  unfold goalValid at h
  simp only [Bool.and_eq_true, bne_iff_ne, decide_eq_true_eq] at h
  exact ⟨h.1.1.1, h.1.1.2, h.1.2, h.2⟩

theorem goalSave_of_valid {g : Goal} (hv : goalValid g = true) :
    goalSave g = .ok (if g.target_amount ≤ g.saved_amount
      then { g with status := "completed" } else g) := by
  unfold goalSave
  rw [hv]
  simp only [Bool.not_true, Bool.false_eq_true, if_false]
  by_cases hc : g.target_amount ≤ g.saved_amount
  · rw [if_pos hc, if_pos hc]
  · rw [if_neg hc, if_neg hc]

theorem goalSave_ok_inv {g g' : Goal} (h : goalSave g = .ok g') :
    goalValid g = true ∧
    g'.id = g.id ∧ g'.user_id = g.user_id ∧ g'.title = g.title ∧
    g'.target_amount = g.target_amount ∧ g'.saved_amount = g.saved_amount ∧
    (g'.status = "completed" ∨ g'.status = g.status) ∧
    (g.target_amount ≤ g.saved_amount → g'.status = "completed") := by
  unfold goalSave at h
  by_cases hv : goalValid g = true
  · rw [hv] at h
    simp only [Bool.not_true, Bool.false_eq_true, if_false] at h
    by_cases hc : g.target_amount ≤ g.saved_amount
    · rw [if_pos hc] at h
      obtain rfl : g' = { g with status := "completed" } := by
        injection h with h2
        exact h2.symm
      exact ⟨hv, rfl, rfl, rfl, rfl, rfl, Or.inl rfl, fun _ => rfl⟩
    · rw [if_neg hc] at h
      obtain rfl : g' = g := by
        injection h with h2
        exact h2.symm
      exact ⟨hv, rfl, rfl, rfl, rfl, rfl, Or.inr rfl, fun hcc => absurd hcc hc⟩
  · have hv' : (!goalValid g) = true := by simp [hv]
    rw [hv'] at h
    simp at h

theorem goalSave_nonneg {g g' : Goal} (h : goalSave g = .ok g') :
    0 ≤ g'.saved_amount := by
  obtain ⟨hv, _, _, _, _, hs, _, _⟩ := goalSave_ok_inv h
  rw [hs]
  exact (goalValid_parts hv).2.2.1

theorem mem_replaceGoal {gs : List Goal} {i : Nat} {u x : Goal}
    (hx : x ∈ replaceGoal gs i u) : x ∈ gs ∨ x = u := by
  induction gs with
  | nil => simp [replaceGoal] at hx
  | cons g rest ih =>
    rcases hg : (g.id == i) with _ | _
    · simp only [replaceGoal, hg, Bool.false_eq_true, if_false, List.mem_cons] at hx
      rcases hx with rfl | hx
      · exact Or.inl (List.mem_cons_self x rest)
      · rcases ih hx with hin | rfl
        · exact Or.inl (List.mem_cons_of_mem g hin)
        · exact Or.inr rfl
    · simp only [replaceGoal, hg, if_true, List.mem_cons] at hx
      rcases hx with rfl | hx
      · exact Or.inr rfl
      · exact Or.inl (List.mem_cons_of_mem g hx)

theorem goalsNonneg_applyOp {db : DB} (op : Op) (h : goalsNonneg db) :
    goalsNonneg (applyOp op db) := by
  cases op with
  | createTxn req =>
    by_cases hval : txnValid (reqTxn req db.nextId) = true
    · rcases hacct : findAccount db req.id_akun with _ | account
      · simp only [applyOp, createTransaction, hval, hacct, Bool.not_true,
          Bool.false_eq_true, if_false, Except.map, commit]
        exact h
      · simp only [applyOp, createTransaction, hval, hacct, Bool.not_true,
          Bool.false_eq_true, if_false, Except.map, commit]
        exact h
    · have hval' : (!txnValid (reqTxn req db.nextId)) = true := by simp [hval]
      simp only [applyOp, createTransaction, hval', if_true, Except.map, commit]
      exact h
  | updateTxn txId body =>
    rcases hfind : findTxn db txId with _ | orig
    · simp only [applyOp, updateTransaction, hfind, Except.map, commit]
      exact h
    · rcases hacct : findAccount db orig.id_akun with _ | account <;>
        simp only [applyOp, updateTransaction, hfind, hacct, Except.map, commit] <;>
        exact h
  | deleteTxn txId =>
    rcases hfind : findTxn db txId with _ | tx
    · simp only [applyOp, deleteTransaction, hfind, commit]
      exact h
    · rcases hacct : findAccount db tx.id_akun with _ | account <;>
        simp only [applyOp, deleteTransaction, hfind, hacct, commit] <;>
        exact h
  | createGoal uid req =>
    rcases hacct : findAccount db uid with _ | account
    · simp only [applyOp, createGoal, hacct, Except.map, commit]
      exact h
    · rcases hsave : goalSave (reqGoal uid req db.nextId) with e | g'
      · simp only [applyOp, createGoal, hacct, hsave, Except.map, commit]
        exact h
      · simp only [applyOp, createGoal, hacct, hsave, Except.map, commit]
        intro x hx
        rcases List.mem_append.mp hx with hin | hnew
        · exact h x hin
        · rw [List.mem_singleton.mp hnew]
          exact goalSave_nonneg hsave
  | updateGoal gid body =>
    rcases hfind : findGoal db gid with _ | g
    · simp only [applyOp, updateGoal, hfind, Except.map, commit]
      exact h
    · by_cases hval : goalValid (mergedGoal body g) = true
      · simp only [applyOp, updateGoal, hfind, hval, Bool.not_true,
          Bool.false_eq_true, if_false, Except.map, commit]
        intro x hx
        rcases mem_replaceGoal hx with hin | rfl
        · exact h x hin
        · exact (goalValid_parts hval).2.2.1
      · have hval' : (!goalValid (mergedGoal body g)) = true := by simp [hval]
        simp only [applyOp, updateGoal, hfind, hval', if_true, Except.map, commit]
        exact h
  | allocate gid req =>
    rcases hfind : findGoal db gid with _ | goal
    · simp only [applyOp, allocateFunds, hfind, Except.map, commit]
      exact h
    · rcases hamt : req.amount with _ | amount
      · simp only [applyOp, allocateFunds, hfind, hamt, Except.map, commit]
        exact h
      · by_cases hle : amount ≤ 0
        · simp only [applyOp, allocateFunds, hfind, hamt, hle, if_pos, Except.map, commit]
          exact h
        · rcases hsave : goalSave { goal with saved_amount := goal.saved_amount + amount }
            with e | goal2
          · simp only [applyOp, allocateFunds, hfind, hamt, if_neg hle, hsave,
              Except.map, commit]
            exact h
          · have hmem : ∀ x ∈ replaceGoal db.goals gid goal2, 0 ≤ x.saved_amount := by
              intro x hx
              rcases mem_replaceGoal hx with hin | rfl
              · exact h x hin
              · exact goalSave_nonneg hsave
            rcases hct : req.create_transaction with _ | _
            · simp only [applyOp, allocateFunds, hfind, hamt, if_neg hle, hsave, hct,
                Bool.false_eq_true, if_false, Except.map, commit]
              exact hmem
            · by_cases hv : txnValid (allocTxn goal amount req.note db.nextId) = true
              · rcases hacct : findAccount db goal.user_id with _ | account <;>
                  simp only [applyOp, allocateFunds, hfind, hamt, if_neg hle, hsave, hct,
                    if_true, hv, hacct, Bool.not_true, Bool.false_eq_true, if_false,
                    Except.map, commit] <;>
                  exact hmem
              · have hv' : (!txnValid (allocTxn goal amount req.note db.nextId)) = true := by
                  simp [hv]
                simp only [applyOp, allocateFunds, hfind, hamt, if_neg hle, hsave, hct,
                  if_true, hv', Except.map, commit]
                exact h
  | withdraw gid req =>
    rcases hfind : findGoal db gid with _ | goal
    · simp only [applyOp, withdrawFunds, hfind, Except.map, commit]
      exact h
    · rcases hamt : req.amount with _ | amount
      · simp only [applyOp, withdrawFunds, hfind, hamt, Except.map, commit]
        exact h
      · by_cases hle : amount ≤ 0
        · simp only [applyOp, withdrawFunds, hfind, hamt, hle, if_pos, Except.map, commit]
          exact h
        · by_cases hov : goal.saved_amount < amount
          · simp only [applyOp, withdrawFunds, hfind, hamt, if_neg hle, hov, if_pos,
              Except.map, commit]
            exact h
          · rcases hsave : goalSave { goal with saved_amount := goal.saved_amount - amount }
              with e | goal2
            · simp only [applyOp, withdrawFunds, hfind, hamt, if_neg hle, if_neg hov,
                hsave, Except.map, commit]
              exact h
            · have hmem : ∀ x ∈ replaceGoal db.goals gid goal2, 0 ≤ x.saved_amount := by
                intro x hx
                rcases mem_replaceGoal hx with hin | rfl
                · exact h x hin
                · exact goalSave_nonneg hsave
              rcases hct : req.create_transaction with _ | _
              · simp only [applyOp, withdrawFunds, hfind, hamt, if_neg hle, if_neg hov,
                  hsave, hct, Bool.false_eq_true, if_false, Except.map, commit]
                exact hmem
              · by_cases hv : txnValid (withdrawTxn goal amount req.note db.nextId) = true
                · rcases hacct : findAccount db goal.user_id with _ | account <;>
                    simp only [applyOp, withdrawFunds, hfind, hamt, if_neg hle,
                      if_neg hov, hsave, hct, if_true, hv, hacct, Bool.not_true,
                      Bool.false_eq_true, if_false, Except.map, commit] <;>
                    exact hmem
                · have hv' :
                      (!txnValid (withdrawTxn goal amount req.note db.nextId)) = true := by
                    simp [hv]
                  simp only [applyOp, withdrawFunds, hfind, hamt, if_neg hle, if_neg hov,
                    hsave, hct, if_true, hv', Except.map, commit]
                  exact h
  | rebuildCategories uid =>
    exact h

/-! ## Lemmas: inversion of successful goal operations, decidability -/

instance decBodyTags (body : UpdateTxnBody) :
    Decidable (∀ l, body.tags = some l → l.Nodup) :=
  match h : body.tags with
  | none =>
    isTrue (by
      intro l hl
      cases hl)
  | some l0 =>
    decidable_of_iff (l0.Nodup)
      ⟨by
        intro hnd l hl
        cases hl
        exact hnd,
       fun hall => hall l0 rfl⟩

instance : DecidablePred conservesBalance := fun op =>
  match op with
  | .createTxn _ => isTrue trivial
  | .updateTxn _ body =>
    decidable_of_iff (body.nominal ≠ some 0 ∧ body.tipe ≠ some "") Iff.rfl
  | .deleteTxn _ => isTrue trivial
  | .createGoal _ _ => isFalse (fun h => h)
  | .updateGoal _ _ => isFalse (fun h => h)
  | .allocate _ _ => isFalse (fun h => h)
  | .withdraw _ _ => isFalse (fun h => h)
  | .rebuildCategories _ => isFalse (fun h => h)

instance : DecidablePred keepsCatTotals := fun op =>
  match op with
  | .createTxn req => inferInstanceAs (Decidable (List.Nodup _))
  | .updateTxn _ body => decBodyTags body
  | .deleteTxn _ => isTrue trivial
  | .createGoal _ _ => isFalse (fun h => h)
  | .updateGoal _ _ => isFalse (fun h => h)
  | .allocate _ _ => isFalse (fun h => h)
  | .withdraw _ _ => isFalse (fun h => h)
  | .rebuildCategories _ => isFalse (fun h => h)

theorem allocateFunds_ok_inv {gid : Nat} {req : FundsReq} {db : DB} {g' : Goal}
    {db' : DB} (h : allocateFunds gid req db = .ok (g', db')) :
    ∃ goal amount, findGoal db gid = some goal ∧ req.amount = some amount ∧
      0 < amount ∧
      goalSave { goal with saved_amount := goal.saved_amount + amount } = .ok g' := by
  unfold allocateFunds at h
  rcases hfind : findGoal db gid with _ | goal
  · simp only [hfind] at h
    exact Except.noConfusion h
  · simp only [hfind] at h
    rcases hamt : req.amount with _ | amount
    · simp only [hamt] at h
      exact Except.noConfusion h
    · simp only [hamt] at h
      by_cases hle : amount ≤ 0
      · simp only [if_pos hle] at h
        exact Except.noConfusion h
      · simp only [if_neg hle] at h
        rcases hsave : goalSave { goal with saved_amount := goal.saved_amount + amount }
          with e | goal2
        · simp only [hsave] at h
          exact Except.noConfusion h
        · simp only [hsave] at h
          refine ⟨goal, amount, rfl, rfl, by omega, ?_⟩
          rcases hct : req.create_transaction with _ | _
          · simp only [hct, Bool.false_eq_true, if_false] at h
            injection h with h2
            rw [Prod.mk.injEq] at h2
            rw [← h2.1]
            exact hsave
          · simp only [hct, if_true] at h
            by_cases hv : txnValid (allocTxn goal amount req.note db.nextId) = true
            · simp only [hv, Bool.not_true, Bool.false_eq_true, if_false] at h
              rcases hacct : findAccount db goal.user_id with _ | account
              · simp only [hacct] at h
                injection h with h2
                rw [Prod.mk.injEq] at h2
                rw [← h2.1]
                exact hsave
              · simp only [hacct] at h
                injection h with h2
                rw [Prod.mk.injEq] at h2
                rw [← h2.1]
                exact hsave
            · have hv' : (!txnValid (allocTxn goal amount req.note db.nextId)) = true := by
                simp [hv]
              simp only [hv', if_true] at h
              exact Except.noConfusion h

theorem withdrawFunds_ok_inv {gid : Nat} {req : FundsReq} {db : DB} {g' : Goal}
    {db' : DB} (h : withdrawFunds gid req db = .ok (g', db')) :
    ∃ goal amount, findGoal db gid = some goal ∧ req.amount = some amount ∧
      0 < amount ∧ amount ≤ goal.saved_amount ∧
      goalSave { goal with saved_amount := goal.saved_amount - amount } = .ok g' := by
  unfold withdrawFunds at h
  rcases hfind : findGoal db gid with _ | goal
  · simp only [hfind] at h
    exact Except.noConfusion h
  · simp only [hfind] at h
    rcases hamt : req.amount with _ | amount
    · simp only [hamt] at h
      exact Except.noConfusion h
    · simp only [hamt] at h
      by_cases hle : amount ≤ 0
      · simp only [if_pos hle] at h
        exact Except.noConfusion h
      · simp only [if_neg hle] at h
        by_cases hov : goal.saved_amount < amount
        · simp only [if_pos hov] at h
          exact Except.noConfusion h
        · simp only [if_neg hov] at h
          rcases hsave : goalSave { goal with saved_amount := goal.saved_amount - amount }
            with e | goal2
          · simp only [hsave] at h
            exact Except.noConfusion h
          · simp only [hsave] at h
            refine ⟨goal, amount, rfl, rfl, by omega, by omega, ?_⟩
            rcases hct : req.create_transaction with _ | _
            · simp only [hct, Bool.false_eq_true, if_false] at h
              injection h with h2
              rw [Prod.mk.injEq] at h2
              rw [← h2.1]
              exact hsave
            · simp only [hct, if_true] at h
              by_cases hv : txnValid (withdrawTxn goal amount req.note db.nextId) = true
              · simp only [hv, Bool.not_true, Bool.false_eq_true, if_false] at h
                rcases hacct : findAccount db goal.user_id with _ | account
                · simp only [hacct] at h
                  injection h with h2
                  rw [Prod.mk.injEq] at h2
                  rw [← h2.1]
                  exact hsave
                · simp only [hacct] at h
                  injection h with h2
                  rw [Prod.mk.injEq] at h2
                  rw [← h2.1]
                  exact hsave
              · have hv' :
                    (!txnValid (withdrawTxn goal amount req.note db.nextId)) = true := by
                  simp [hv]
                simp only [hv', if_true] at h
                exact Except.noConfusion h

theorem createGoal_ok_inv {uid : Nat} {req : CreateGoalReq} {db : DB} {g' : Goal}
    {db' : DB} (h : createGoal uid req db = .ok (g', db')) :
    goalSave (reqGoal uid req db.nextId) = .ok g' := by
  unfold createGoal at h
  rcases hacct : findAccount db uid with _ | account
  · simp only [hacct] at h
    exact Except.noConfusion h
  · simp only [hacct] at h
    rcases hsave : goalSave (reqGoal uid req db.nextId) with e | g2
    · simp only [hsave] at h
      exact Except.noConfusion h
    · simp only [hsave] at h
      injection h with h2
      rw [Prod.mk.injEq] at h2
      rw [← h2.1]

/-! ## Lemmas: applying after reverting, allocation transaction validity -/

theorem applyBalance_revertBalance (b : Int) (t : String) (n : Int) :
    applyBalance (revertBalance b t n) t n = b := by
  rw [applyBalance_eq, revertBalance_eq]
  ring

theorem allocDesc_ne_empty (title : String) (note : Option String) :
    (allocDesc title note != "") = true := by
  rw [bne_iff_ne]
  intro h
  have hlen := congrArg String.length h
  unfold allocDesc at hlen
  rw [String.length_append, String.length_append] at hlen
  have h17 : ("Goal allocation: " : String).length = 17 := rfl
  have h0 : ("" : String).length = 0 := rfl
  rw [h17, h0] at hlen
  omega

theorem txnValid_allocTxn (goal : Goal) (amount : Int) (note : Option String) (id : Nat) :
    txnValid (allocTxn goal amount note id) = true := by
  show (validTipe "expense" && (allocDesc goal.title note != "")) = true
  rw [allocDesc_ne_empty]
  decide

/-! ## The claims -/

/-- C7: update idempotence.  For every stored transaction whose account
exists, a `updateTransaction` whose body repeats the original kind and
amount commits a state identical to the prior one: the merged document
equals the original, the account balance is re-applied to its prior value,
and the category reversal pass followed by the re-application pass nets to
zero on every category balance (given the store's well-formedness: unique
category keys and a category present for each non-blank tag of the
transaction). -/
theorem c7_update_idempotence (db : DB) (txId : Nat) (orig : Txn) (account : Account)
    (hfind : findTxn db txId = some orig)
    (hacct : findAccount db orig.id_akun = some account)
    (hnd : catKeysNodup db.categories)
    (hall : ∀ tag ∈ orig.tags, isBlankTag tag = false →
      presentCat db.categories orig.id_akun tag orig.tipe = true) :
    updateTransaction txId ⟨some orig.tipe, none, some orig.nominal, none⟩ db =
      .ok (orig, db) := by
  have hacct' : db.accounts.find? (fun a => a.id == orig.id_akun) = some account := hacct
  have hfind' : db.transactions.find? (fun t => t.id == txId) = some orig := hfind
  have hm : mergedTxn ⟨some orig.tipe, none, some orig.nominal, none⟩ orig = orig := rfl
  have hft : fallbackTipe (some orig.tipe) orig.tipe = orig.tipe := by
    show (if orig.tipe == "" then orig.tipe else orig.tipe) = orig.tipe
    rw [ite_self]
  have hfn : fallbackNominal (some orig.nominal) orig.nominal = orig.nominal := by
    show (if orig.nominal == 0 then orig.nominal else orig.nominal) = orig.nominal
    rw [ite_self]
  simp only [updateTransaction, hfind, hacct, hm, hft, hfn, applyBalance_revertBalance]
  rw [replaceTxn_self hfind', setAccountBalance_self hacct']
  have hcats : updateCategoryBalances orig false
      (updateCategoryBalances orig true db.categories) = db.categories := by
    show applyTags orig.id_akun orig.tipe orig.nominal orig.tags
        (applyTags orig.id_akun orig.tipe (-orig.nominal) orig.tags db.categories) =
      db.categories
    exact applyTags_reverse_apply orig.id_akun orig.tipe orig.nominal hnd hall
  rw [hcats]

theorem c7_update_idempotence_witness :
    updateTransaction 1 ⟨some "expense", none, some 300, none⟩ dbFood =
      .ok (⟨1, 0, "expense", "makan", 300, "lainnya", ["food"]⟩, dbFood) :=
  c7_update_idempotence dbFood 1 ⟨1, 0, "expense", "makan", 300, "lainnya", ["food"]⟩
    ⟨0, -300⟩ (by decide) (by decide) (by decide) (by decide)

/-- C8: rebuild idempotence.  Running `generateCategoriesFromTags` twice on
an unchanged transaction history commits the very state the first run
committed, and each run overwrites every affected category to the freshly
computed per-(tag, kind) sum of `nominal` (the `tagData` entry), rather
than incrementing the stored balance. -/
theorem c8_rebuild_idempotence (uid : Nat) (db : DB) :
    generateCategoriesFromTags uid (generateCategoriesFromTags uid db) =
      generateCategoriesFromTags uid db ∧
    ∀ e ∈ tagDataOf (db.transactions.filter (fun t => t.id_akun == uid)),
      lookupBal (generateCategoriesFromTags uid db).categories uid e.1 e.2.1 =
        some e.2.2 :=
  ⟨generate_idem uid db, gen_lookup_after db⟩

theorem c8_rebuild_idempotence_witness :
    (generateCategoriesFromTags 0 (generateCategoriesFromTags 0 dbRebuild) =
      generateCategoriesFromTags 0 dbRebuild) ∧
    lookupBal (generateCategoriesFromTags 0 dbRebuild).categories 0 "x" "income" =
      some 10 :=
  ⟨(c8_rebuild_idempotence 0 dbRebuild).1,
    (c8_rebuild_idempotence 0 dbRebuild).2 ("x", "income", 10) (by decide)⟩

/-- C9: completion is sticky under withdrawal.  A goal whose stored status
is `completed` keeps status `completed` after any committed `withdrawFunds`,
even one that drops `saved_amount` below `target_amount`: the save hook only
ever promotes to `completed` and never demotes. -/
theorem c9_sticky_completion (db : DB) (gid : Nat) (req : FundsReq) (g g' : Goal)
    (db' : DB) (hfind : findGoal db gid = some g) (hdone : g.status = "completed")
    (h : withdrawFunds gid req db = .ok (g', db')) :
    g'.status = "completed" := by
  obtain ⟨goal, amount, hfind2, hamt, hpos, hle, hsave⟩ := withdrawFunds_ok_inv h
  rw [hfind] at hfind2
  injection hfind2 with hg
  subst hg
  obtain ⟨hv, _, _, _, _, _, hst, _⟩ := goalSave_ok_inv hsave
  rcases hst with hc | hc
  · exact hc
  · rw [hc]
    exact hdone

theorem c9_sticky_completion_witness :
    (withdrawFunds 1 ⟨some 50, none, false⟩ dbGoalDone =
      .ok (⟨1, 0, "Trip", 100, 70, "completed"⟩,
        ⟨[⟨0, 0⟩], [], [], [⟨1, 0, "Trip", 100, 70, "completed"⟩], 2⟩)) ∧
    (⟨1, 0, "Trip", 100, 70, "completed"⟩ : Goal).status = "completed" :=
  ⟨rfl,
    c9_sticky_completion dbGoalDone 1 ⟨some 50, none, false⟩
      ⟨1, 0, "Trip", 100, 120, "completed"⟩ ⟨1, 0, "Trip", 100, 70, "completed"⟩
      ⟨[⟨0, 0⟩], [], [], [⟨1, 0, "Trip", 100, 70, "completed"⟩], 2⟩
      (by decide) rfl rfl⟩

/-- C10: the falsy fallback of `updateTransaction`.  For every stored
transaction whose account exists, a body carrying `nominal = 0` (falsy) is
persisted verbatim in the stored document while the account delta is
computed from `req.body.nominal || originalTransaction.nominal`, i.e. from
the original amount — so the account balance is left exactly where it was
while the stored document now says 0; symmetrically, a body carrying the
falsy `tipe = ""` stores the empty kind while the delta is computed from
the original kind, again leaving the balance unchanged.  In both cases the
stored transaction and the applied balance change disagree. -/
theorem c10_falsy_fallback (db : DB) (txId : Nat) (orig : Txn) (account : Account)
    (hfind : findTxn db txId = some orig)
    (hacct : findAccount db orig.id_akun = some account) :
    (updateTransaction txId ⟨none, none, some 0, none⟩ db =
      .ok ({ orig with nominal := 0 },
        { db with
          transactions := replaceTxn db.transactions txId { orig with nominal := 0 }
          accounts := db.accounts
          categories :=
            (updateCategoryBalances { orig with nominal := 0 } false
              (updateCategoryBalances orig true db.categories)) })) ∧
    (updateTransaction txId ⟨some "", none, none, none⟩ db =
      .ok ({ orig with tipe := "" },
        { db with
          transactions := replaceTxn db.transactions txId { orig with tipe := "" }
          accounts := db.accounts
          categories :=
            (updateCategoryBalances { orig with tipe := "" } false
              (updateCategoryBalances orig true db.categories)) })) := by
  have hacct' : db.accounts.find? (fun a => a.id == orig.id_akun) = some account := hacct
  constructor
  · have hm : mergedTxn ⟨none, none, some 0, none⟩ orig = { orig with nominal := 0 } :=
      rfl
    have hft : fallbackTipe (none : Option String) orig.tipe = orig.tipe := rfl
    have hfn : fallbackNominal (some 0) orig.nominal = orig.nominal := by
      simp [fallbackNominal]
    simp only [updateTransaction, hfind, hacct, hm, hft, hfn, applyBalance_revertBalance]
    rw [setAccountBalance_self hacct']
  · have hm : mergedTxn ⟨some "", none, none, none⟩ orig = { orig with tipe := "" } :=
      rfl
    have hft : fallbackTipe (some "") orig.tipe = orig.tipe := by
      simp [fallbackTipe]
    have hfn : fallbackNominal (none : Option Int) orig.nominal = orig.nominal := rfl
    simp only [updateTransaction, hfind, hacct, hm, hft, hfn, applyBalance_revertBalance]
    rw [setAccountBalance_self hacct']

theorem c10_falsy_fallback_witness :
    (updateTransaction 1 ⟨none, none, some 0, none⟩ dbOneIncome =
      .ok ({ (⟨1, 0, "income", "gaji", 100, "lainnya", []⟩ : Txn) with nominal := 0 },
        { dbOneIncome with
          transactions := replaceTxn dbOneIncome.transactions 1
            { (⟨1, 0, "income", "gaji", 100, "lainnya", []⟩ : Txn) with nominal := 0 }
          accounts := dbOneIncome.accounts
          categories :=
            (updateCategoryBalances
              { (⟨1, 0, "income", "gaji", 100, "lainnya", []⟩ : Txn) with nominal := 0 }
              false
              (updateCategoryBalances ⟨1, 0, "income", "gaji", 100, "lainnya", []⟩ true
                dbOneIncome.categories)) })) ∧
    (updateTransaction 1 ⟨some "", none, none, none⟩ dbOneIncome =
      .ok ({ (⟨1, 0, "income", "gaji", 100, "lainnya", []⟩ : Txn) with tipe := "" },
        { dbOneIncome with
          transactions := replaceTxn dbOneIncome.transactions 1
            { (⟨1, 0, "income", "gaji", 100, "lainnya", []⟩ : Txn) with tipe := "" }
          accounts := dbOneIncome.accounts
          categories :=
            (updateCategoryBalances
              { (⟨1, 0, "income", "gaji", 100, "lainnya", []⟩ : Txn) with tipe := "" }
              false
              (updateCategoryBalances ⟨1, 0, "income", "gaji", 100, "lainnya", []⟩ true
                dbOneIncome.categories)) })) :=
  c10_falsy_fallback dbOneIncome 1 ⟨1, 0, "income", "gaji", 100, "lainnya", []⟩ ⟨0, 100⟩
    (by decide) (by decide)

/-- C1 counterexample: the claim fails for unrestricted update bodies.  On
a conserving state, creating an income of 100 and then updating it with the
falsy body `nominal = 0` stores `nominal = 0` while the account balance
stays 100, so the balance no longer equals the signed sum. -/
theorem c1_counterexample :
    balancesMatch dbOneAccount ∧
    ¬ balancesMatch
      (runOps [Op.createTxn ⟨0, "income", "gaji", 100, none, none⟩,
        Op.updateTxn 1 ⟨none, none, some 0, none⟩] dbOneAccount) :=
  ⟨by decide, by decide⟩

/-- C1 (amended): balance conservation.  Starting from a state with unique
account ids where every account balance equals the signed sum of its
stored transactions, any sequence of `createTransaction`,
`updateTransaction` and `deleteTransaction` operations — with update bodies
avoiding the falsy fallback values `nominal = 0` and `tipe = ""` —
commits only states where every account balance still equals the signed
sum (`+nominal` for income, `-nominal` for expense) of its currently
stored transactions. -/
theorem c1_balance_conservation (db : DB) (ops : List Op)
    (hwf : acctIdsNodup db) (h0 : balancesMatch db)
    (hops : ∀ op ∈ ops, conservesBalance op) :
    balancesMatch (runOps ops db) :=
  (c1Inv_runOps hops ⟨hwf, h0⟩).2

theorem c1_balance_conservation_witness :
    balancesMatch
      (runOps [Op.createTxn ⟨0, "income", "gaji", 100, none, none⟩,
        Op.updateTxn 1 ⟨some "expense", none, some 40, none⟩,
        Op.deleteTxn 1] dbOneAccount) :=
  c1_balance_conservation dbOneAccount
    [Op.createTxn ⟨0, "income", "gaji", 100, none, none⟩,
      Op.updateTxn 1 ⟨some "expense", none, some 40, none⟩,
      Op.deleteTxn 1]
    (by decide) (by decide) (by decide)

/-- C2 counterexample: the claim fails once goal allocation with
transaction recording is among the operations.  After an expense tagged
`goal` establishes a matching category, `allocateFunds` with
`create_transaction` stores a new expense transaction tagged
`["goal", "savings", slug]` but never touches category balances, so the
`goal` category's balance no longer equals its per-(tag, kind) sum. -/
theorem c2_counterexample :
    catsMatch dbAccountGoal ∧
    ¬ catsMatch
      (runOps [Op.createTxn ⟨0, "expense", "makan", 50, none, some ["goal"]⟩,
        Op.allocate 5 ⟨some 20, none, true⟩] dbAccountGoal) :=
  ⟨by decide, by decide⟩

/-- C2 (amended): category totals match tags.  Starting from a
well-formed state (unique category keys, non-blank category names,
duplicate-free stored tag lists, a category document for each non-blank
tag) where every category balance equals its per-(tag, kind) sum of
`nominal`, any sequence of `createTransaction`, `updateTransaction` and
`deleteTransaction` operations whose incoming tag lists are
duplicate-free commits only states where every stored category's balance
equals the sum of `nominal` over the account's currently stored
transactions carrying the category's name among their tags with the
category's type.  (Goal allocate/withdraw with transaction recording is
excluded: it records tagged transactions without updating categories.) -/
theorem c2_category_totals (db : DB) (ops : List Op)
    (hwf : catWF db) (h0 : catsMatch db)
    (hops : ∀ op ∈ ops, keepsCatTotals op) :
    catsMatch (runOps ops db) :=
  (c2Inv_runOps hops ⟨hwf, h0⟩).2

theorem c2_category_totals_witness :
    catsMatch
      (runOps [Op.createTxn ⟨0, "expense", "jajan", 20, none, some ["food"]⟩,
        Op.updateTxn 1 ⟨none, none, some 500, none⟩] dbFood) :=
  c2_category_totals dbFood
    [Op.createTxn ⟨0, "expense", "jajan", 20, none, some ["food"]⟩,
      Op.updateTxn 1 ⟨none, none, some 500, none⟩]
    (by decide) (by decide) (by decide)

/-- C3 counterexample: the claim's amount check does not exist.  The
transaction schema has no `min` on `nominal`, so a create request with the
negative amount −5 passes validation, is persisted verbatim, and moves the
account balance to −5. -/
theorem c3_counterexample :
    createTransaction ⟨0, "income", "gaji", -5, none, none⟩ dbOneAccount =
      .ok (⟨1, 0, "income", "gaji", -5, "lainnya", []⟩,
        ⟨[⟨0, -5⟩], [⟨1, 0, "income", "gaji", -5, "lainnya", []⟩], [], [], 2⟩) ∧
    (-5 : Int) ≤ 0 :=
  ⟨rfl, by decide⟩

/-- C3 (amended): create-transaction validation.  `createTransaction`
rejects with a validation error exactly the requests failing the schema's
checks — `tipe` outside the `income`/`expense` enum or an empty required
`deskripsi`; no check constrains `nominal`, so any amount (including zero
and negatives) is accepted.  A validation failure, like a missing account,
aborts the session leaving the state unchanged; on success the built
document is appended verbatim to the stored transactions. -/
theorem c3_validation (req : CreateTxnReq) (db : DB) :
    (txnValid (reqTxn req db.nextId) = false →
      createTransaction req db = .error .validation ∧
      applyOp (.createTxn req) db = db) ∧
    (validTipe req.tipe = false → txnValid (reqTxn req db.nextId) = false) ∧
    (txnValid (reqTxn req db.nextId) = true → findAccount db req.id_akun = none →
      createTransaction req db = .error .notFound ∧
      applyOp (.createTxn req) db = db) ∧
    (∀ account, txnValid (reqTxn req db.nextId) = true →
      findAccount db req.id_akun = some account →
      ∃ db', createTransaction req db = .ok (reqTxn req db.nextId, db') ∧
        db'.transactions = db.transactions ++ [reqTxn req db.nextId]) := by
  refine ⟨fun hv => ?_, fun ht => ?_, fun hv hacct => ?_, fun account hv hacct => ?_⟩
  · have herr : createTransaction req db = .error .validation := by
      simp only [createTransaction, hv, Bool.not_false, if_true]
    refine ⟨herr, ?_⟩
    show commit ((createTransaction req db).map (·.2)) db = db
    rw [herr]
    rfl
  · simp [txnValid, reqTxn, ht]
  · have herr : createTransaction req db = .error .notFound := by
      simp only [createTransaction, hv, Bool.not_true, Bool.false_eq_true, if_false,
        hacct]
    refine ⟨herr, ?_⟩
    show commit ((createTransaction req db).map (·.2)) db = db
    rw [herr]
    rfl
  · simp only [createTransaction, hv, Bool.not_true, Bool.false_eq_true, if_false, hacct]
    exact ⟨_, rfl, rfl⟩

theorem c3_validation_witness :
    (createTransaction ⟨0, "transfer", "gaji", 10, none, none⟩ dbOneAccount =
      .error .validation ∧
      applyOp (.createTxn ⟨0, "transfer", "gaji", 10, none, none⟩) dbOneAccount =
        dbOneAccount) ∧
    (∃ db',
      createTransaction ⟨0, "expense", "belanja", -7, none, none⟩ dbOneAccount =
        .ok (reqTxn ⟨0, "expense", "belanja", -7, none, none⟩ dbOneAccount.nextId,
          db') ∧
      db'.transactions = dbOneAccount.transactions ++
        [reqTxn ⟨0, "expense", "belanja", -7, none, none⟩ dbOneAccount.nextId]) :=
  ⟨(c3_validation ⟨0, "transfer", "gaji", 10, none, none⟩ dbOneAccount).1 (by decide),
    (c3_validation ⟨0, "expense", "belanja", -7, none, none⟩ dbOneAccount).2.2.2
      ⟨0, 0⟩ (by decide) (by decide)⟩

/-- C4: goal bounds.  (1) Every operation preserves non-negativity of
every stored goal's `saved_amount`.  (2) A withdrawal whose amount
strictly exceeds the goal's non-negative `saved_amount` fails with an
insufficient-funds error reporting exactly the available `saved_amount`,
and the aborted session leaves the state unchanged.  (3) A withdrawal
with `0 < amount ≤ saved_amount` from a schema-valid goal commits,
decreasing `saved_amount` by exactly `amount` and leaving it
non-negative. -/
theorem c4_goal_bounds :
    (∀ (db : DB) (op : Op), goalsNonneg db → goalsNonneg (applyOp op db)) ∧
    (∀ (db : DB) (gid : Nat) (g : Goal) (amount : Int) (note : Option String)
      (ct : Bool), findGoal db gid = some g → 0 ≤ g.saved_amount →
      g.saved_amount < amount →
      withdrawFunds gid ⟨some amount, note, ct⟩ db =
        .error (.insufficientFunds g.saved_amount) ∧
      applyOp (.withdraw gid ⟨some amount, note, ct⟩) db = db) ∧
    (∀ (db : DB) (gid : Nat) (g : Goal) (amount : Int) (note : Option String),
      findGoal db gid = some g → goalDocWF g = true → 0 ≤ g.saved_amount →
      0 < amount → amount ≤ g.saved_amount →
      ∃ g' db', withdrawFunds gid ⟨some amount, note, false⟩ db = .ok (g', db') ∧
        g'.saved_amount = g.saved_amount - amount ∧ 0 ≤ g'.saved_amount) := by
  refine ⟨fun db op h => goalsNonneg_applyOp op h,
    fun db gid g amount note ct hfind h0 hlt => ?_,
    fun db gid g amount note hfind hwf h0 hpos hle => ?_⟩
  · have hnle : ¬ amount ≤ 0 := by omega
    have herr : withdrawFunds gid ⟨some amount, note, ct⟩ db =
        .error (.insufficientFunds g.saved_amount) := by
      simp only [withdrawFunds, hfind]
      rw [if_neg hnle, if_pos hlt]
    refine ⟨herr, ?_⟩
    show commit ((withdrawFunds gid ⟨some amount, note, ct⟩ db).map (·.2)) db = db
    rw [herr]
    rfl
  · have hnle : ¬ amount ≤ 0 := by omega
    have hnlt : ¬ g.saved_amount < amount := by omega
    have hval : goalValid { g with saved_amount := g.saved_amount - amount } = true := by
      unfold goalValid
      unfold goalDocWF at hwf
      simp only [Bool.and_eq_true, bne_iff_ne, decide_eq_true_eq] at hwf ⊢
      exact ⟨⟨⟨hwf.1.1, hwf.1.2⟩, by omega⟩, hwf.2⟩
    rcases hgs : goalSave { g with saved_amount := g.saved_amount - amount }
      with e | g2
    · exfalso
      unfold goalSave at hgs
      rw [hval] at hgs
      simp only [Bool.not_true, Bool.false_eq_true, if_false] at hgs
      split at hgs <;> exact Except.noConfusion hgs
    · have hsat : g2.saved_amount = g.saved_amount - amount :=
        (goalSave_ok_inv hgs).2.2.2.2.2.1
      have hok : withdrawFunds gid ⟨some amount, note, false⟩ db =
          .ok (g2, { db with goals := replaceGoal db.goals gid g2 }) := by
        simp only [withdrawFunds, hfind]
        rw [if_neg hnle, if_neg hnlt]
        simp only [hgs, Bool.false_eq_true, if_false]
      exact ⟨g2, _, hok, hsat, by omega⟩

theorem c4_goal_bounds_witness :
    goalsNonneg (applyOp (.allocate 1 ⟨some 10, none, false⟩) dbGoal40) ∧
    (withdrawFunds 1 ⟨some 50, none, false⟩ dbGoal40 =
      .error (.insufficientFunds 40) ∧
      applyOp (.withdraw 1 ⟨some 50, none, false⟩) dbGoal40 = dbGoal40) ∧
    (∃ g' db', withdrawFunds 1 ⟨some 30, none, false⟩ dbGoal40 = .ok (g', db') ∧
      g'.saved_amount = 40 - 30 ∧ 0 ≤ g'.saved_amount) :=
  ⟨c4_goal_bounds.1 dbGoal40 (.allocate 1 ⟨some 10, none, false⟩) (by decide),
    c4_goal_bounds.2.1 dbGoal40 1 ⟨1, 0, "Trip", 100, 40, "active"⟩ 50 none false
      (by decide) (by decide) (by decide),
    c4_goal_bounds.2.2 dbGoal40 1 ⟨1, 0, "Trip", 100, 40, "active"⟩ 30 none
      (by decide) (by decide) (by decide) (by decide) (by decide)⟩

/-- C5 counterexample: the claim fails on the `updateGoal` persistence
path.  `findByIdAndUpdate` runs the validators but not the `pre('save')`
hook, so updating a goal's `saved_amount` to 150 against a target of 100
persists `saved_amount = 150` with status still `active`. -/
theorem c5_counterexample :
    updateGoal 1 ⟨none, none, some 150, none⟩ dbGoal40 =
      .ok (⟨1, 0, "Trip", 100, 150, "active"⟩,
        ⟨[⟨0, 0⟩], [], [], [⟨1, 0, "Trip", 100, 150, "active"⟩], 2⟩) ∧
    (100 : Int) ≤ 150 ∧ ("active" : String) ≠ "completed" :=
  ⟨rfl, by decide, by decide⟩

/-- C5 (amended): goal auto-completion on save paths.  Whenever a goal
document goes through `save()` — in `createGoal`, `allocateFunds` and
`withdrawFunds`, but not in `updateGoal`, whose `findByIdAndUpdate` skips
the `pre('save')` hook — a saved amount reaching the target forces status
`completed`: (1) on any successful save with `saved_amount ≥
target_amount`; (2) after an allocation making the saved amount reach the
target; (3) after a withdrawal leaving the saved amount at or above the
target; (4) on creation with initial saved amount at or above the target.
(5) `updateGoal` with no `status` field keeps the prior status verbatim.
(6) The derived progress is clamped to at most 100 and is 0 when
`target_amount` is 0. -/
theorem c5_goal_completion :
    (∀ g g' : Goal, goalSave g = .ok g' → g.target_amount ≤ g.saved_amount →
      g'.status = "completed") ∧
    (∀ (db : DB) (gid : Nat) (req : FundsReq) (g' : Goal) (db' : DB) (goal : Goal)
      (amount : Int), allocateFunds gid req db = .ok (g', db') →
      findGoal db gid = some goal → req.amount = some amount →
      goal.target_amount ≤ goal.saved_amount + amount → g'.status = "completed") ∧
    (∀ (db : DB) (gid : Nat) (req : FundsReq) (g' : Goal) (db' : DB) (goal : Goal)
      (amount : Int), withdrawFunds gid req db = .ok (g', db') →
      findGoal db gid = some goal → req.amount = some amount →
      goal.target_amount ≤ goal.saved_amount - amount → g'.status = "completed") ∧
    (∀ (uid : Nat) (req : CreateGoalReq) (db : DB) (g' : Goal) (db' : DB),
      createGoal uid req db = .ok (g', db') →
      req.target_amount ≤ req.saved_amount.getD 0 → g'.status = "completed") ∧
    (∀ (db : DB) (gid : Nat) (body : UpdateGoalBody) (g g' : Goal) (db' : DB),
      updateGoal gid body db = .ok (g', db') → findGoal db gid = some g →
      body.status = none → g'.status = g.status) ∧
    (∀ g : Goal, goalProgress g ≤ 100 ∧ (g.target_amount = 0 → goalProgress g = 0)) := by
  refine ⟨fun g g' h hc => (goalSave_ok_inv h).2.2.2.2.2.2.2 hc,
    fun db gid req g' db' goal amount h hfind hamt hc => ?_,
    fun db gid req g' db' goal amount h hfind hamt hc => ?_,
    fun uid req db g' db' h hc => ?_,
    fun db gid body g g' db' h hfind hnone => ?_,
    fun g => ⟨?_, fun hz => ?_⟩⟩
  · obtain ⟨goal2, amount2, hf2, ha2, hpos, hsave⟩ := allocateFunds_ok_inv h
    rw [hfind] at hf2
    injection hf2 with hg
    subst hg
    rw [hamt] at ha2
    injection ha2 with ha
    subst ha
    exact (goalSave_ok_inv hsave).2.2.2.2.2.2.2 hc
  · obtain ⟨goal2, amount2, hf2, ha2, hpos, hle2, hsave⟩ := withdrawFunds_ok_inv h
    rw [hfind] at hf2
    injection hf2 with hg
    subst hg
    rw [hamt] at ha2
    injection ha2 with ha
    subst ha
    exact (goalSave_ok_inv hsave).2.2.2.2.2.2.2 hc
  · exact (goalSave_ok_inv (createGoal_ok_inv h)).2.2.2.2.2.2.2 hc
  · simp only [updateGoal, hfind] at h
    by_cases hv : goalValid (mergedGoal body g) = true
    · simp only [hv, Bool.not_true, Bool.false_eq_true, if_false] at h
      injection h with h2
      rw [Prod.mk.injEq] at h2
      rw [← h2.1]
      show (mergedGoal body g).status = g.status
      unfold mergedGoal
      rw [hnone]
      rfl
    · have hv' : (!goalValid (mergedGoal body g)) = true := by simp [hv]
      simp only [hv', if_true] at h
      exact Except.noConfusion h
  · unfold goalProgress
    by_cases hz : g.target_amount = 0
    · rw [if_pos hz]
      omega
    · rw [if_neg hz]
      exact min_le_right _ _
  · rw [goalProgress, if_pos hz]

theorem c5_goal_completion_witness :
    (allocateFunds 1 ⟨some 150, none, false⟩ dbGoal40 =
      .ok (⟨1, 0, "Trip", 100, 190, "completed"⟩,
        ⟨[⟨0, 0⟩], [], [], [⟨1, 0, "Trip", 100, 190, "completed"⟩], 2⟩)) ∧
    (⟨1, 0, "Trip", 100, 190, "completed"⟩ : Goal).status = "completed" ∧
    goalProgress (⟨1, 0, "Trip", 100, 190, "completed"⟩ : Goal) ≤ 100 :=
  ⟨rfl,
    c5_goal_completion.2.1 dbGoal40 1 ⟨some 150, none, false⟩
      ⟨1, 0, "Trip", 100, 190, "completed"⟩
      ⟨[⟨0, 0⟩], [], [], [⟨1, 0, "Trip", 100, 190, "completed"⟩], 2⟩
      ⟨1, 0, "Trip", 100, 40, "active"⟩ 150 rfl (by decide) rfl (by decide),
    (c5_goal_completion.2.2.2.2.2 ⟨1, 0, "Trip", 100, 190, "completed"⟩).1⟩

/-- C6 counterexample: the optional transaction side effect of
`allocateFunds` is not atomic.  With `create_transaction` requested on a
goal whose owning account does not exist, the call still commits: the
goal's `saved_amount` grows by 20 and the expense transaction is recorded,
while no account is touched (`if (account)` silently skips the debit) and
no category balance is ever updated. -/
theorem c6_counterexample :
    allocateFunds 1 ⟨some 20, none, true⟩ dbOrphanGoal =
      .ok (⟨1, 7, "Trip", 100, 20, "active"⟩,
        ⟨[], [⟨2, 7, "expense", "Goal allocation: Trip", 20, "savings",
            ["goal", "savings", "trip"]⟩], [],
          [⟨1, 7, "Trip", 100, 20, "active"⟩], 3⟩) ∧
    dbOrphanGoal.accounts = [] ∧ findAccount dbOrphanGoal 7 = none :=
  ⟨rfl, rfl, rfl⟩

/-- C6 (amended): effects of `allocateFunds` with `create_transaction`.
For a stored schema-valid goal and a positive amount, the call always
commits: the returned goal's `saved_amount` grows by exactly the amount,
the goal collection is updated, the expense transaction is appended, and
category balances are never touched.  The account debit alone is
conditional: when the goal's account exists its balance drops by the
amount, and when it does not exist the accounts are silently left as they
were — the goal update and the transaction record still commit, so the
operation is not all-or-nothing. -/
theorem c6_allocate_effects (db : DB) (gid : Nat) (g : Goal) (amount : Int)
    (note : Option String) (hfind : findGoal db gid = some g)
    (hwf : goalDocWF g = true) (h0 : 0 ≤ g.saved_amount) (hpos : 0 < amount) :
    ∃ g' db', allocateFunds gid ⟨some amount, note, true⟩ db = .ok (g', db') ∧
      g'.saved_amount = g.saved_amount + amount ∧
      db'.goals = replaceGoal db.goals gid g' ∧
      db'.transactions = db.transactions ++ [allocTxn g amount note db.nextId] ∧
      db'.categories = db.categories ∧
      (findAccount db g.user_id = none → db'.accounts = db.accounts) ∧
      (∀ account, findAccount db g.user_id = some account →
        db'.accounts = setAccountBalance db.accounts g.user_id
          (account.balance - amount)) := by
  have hnle : ¬ amount ≤ 0 := by omega
  have hval : goalValid { g with saved_amount := g.saved_amount + amount } = true := by
    unfold goalValid
    unfold goalDocWF at hwf
    simp only [Bool.and_eq_true, bne_iff_ne, decide_eq_true_eq] at hwf ⊢
    exact ⟨⟨⟨hwf.1.1, hwf.1.2⟩, by omega⟩, hwf.2⟩
  rcases hgs : goalSave { g with saved_amount := g.saved_amount + amount }
    with e | g2
  · exfalso
    unfold goalSave at hgs
    rw [hval] at hgs
    simp only [Bool.not_true, Bool.false_eq_true, if_false] at hgs
    split at hgs <;> exact Except.noConfusion hgs
  · have hsat : g2.saved_amount = g.saved_amount + amount :=
      (goalSave_ok_inv hgs).2.2.2.2.2.1
    rcases hacct : findAccount db g.user_id with _ | account
    · have hok : allocateFunds gid ⟨some amount, note, true⟩ db =
          .ok (g2,
            { db with
              goals := replaceGoal db.goals gid g2
              transactions := db.transactions ++ [allocTxn g amount note db.nextId]
              nextId := db.nextId + 1 }) := by
        simp only [allocateFunds, hfind]
        rw [if_neg hnle]
        simp only [hgs, if_true, txnValid_allocTxn, Bool.not_true, Bool.false_eq_true,
          if_false, hacct]
      exact ⟨g2, _, hok, hsat, rfl, rfl, rfl, fun _ => rfl,
        fun a2 hacc2 => Option.noConfusion hacc2⟩
    · have hok : allocateFunds gid ⟨some amount, note, true⟩ db =
          .ok (g2,
            { db with
              goals := replaceGoal db.goals gid g2
              transactions := db.transactions ++ [allocTxn g amount note db.nextId]
              nextId := db.nextId + 1
              accounts := setAccountBalance db.accounts g.user_id
                (account.balance - amount) }) := by
        simp only [allocateFunds, hfind]
        rw [if_neg hnle]
        simp only [hgs, if_true, txnValid_allocTxn, Bool.not_true, Bool.false_eq_true,
          if_false, hacct]
      refine ⟨g2, _, hok, hsat, rfl, rfl, rfl, fun hnone => ?_, fun a2 hacc2 => ?_⟩
      · exact Option.noConfusion hnone
      · injection hacc2 with ha
        subst ha
        rfl

theorem c6_allocate_effects_witness :
    ∃ g' db', allocateFunds 1 ⟨some 20, none, true⟩ dbOrphanGoal = .ok (g', db') ∧
      g'.saved_amount = 0 + 20 ∧
      db'.goals = replaceGoal dbOrphanGoal.goals 1 g' ∧
      db'.transactions = dbOrphanGoal.transactions ++
        [allocTxn ⟨1, 7, "Trip", 100, 0, "active"⟩ 20 none dbOrphanGoal.nextId] ∧
      db'.categories = dbOrphanGoal.categories ∧
      (findAccount dbOrphanGoal 7 = none → db'.accounts = dbOrphanGoal.accounts) ∧
      (∀ account, findAccount dbOrphanGoal 7 = some account →
        db'.accounts = setAccountBalance dbOrphanGoal.accounts 7
          (account.balance - 20)) :=
  c6_allocate_effects dbOrphanGoal 1 ⟨1, 7, "Trip", 100, 0, "active"⟩ 20 none
    (by decide) (by decide) (by decide) (by decide)

end SBD